import Mathlib

/-!
Verification of the `FirebaseSESAPDatabase` data-access facade
(`src/firebaseDb.js`) against its natural-language specification.

Modelling conventions (shallow embedding):
* JavaScript numbers are modelled as finite decimals `m / 10 ^ e`
  (`DecNum`).  Every JS float has an exact finite decimal expansion, so
  this is a faithful superset of the values the program manipulates.
  `NaN` (which can only arise here from `parseFloat` on non-numeric
  text) is modelled as `Option.none` where it can occur.
* `JSON.parse` / `JSON.stringify` are platform builtins; they are
  modelled by an executable JSON printer and an executable fuel-based
  JSON parser over the value universe `Json` below (decimal number
  literals without exponent notation, which the printer never emits).
* The remote Firestore collection is external; write operations are
  modelled by the trace of adds / deletes they issue together with the
  boolean result the method returns.  The local cache mirrored by the
  `onSnapshot` listener is modelled as a list of `Candidate` records.
-/

set_option maxHeartbeats 1000000

/-- A JavaScript number modelled as the finite decimal `m / 10 ^ e`. -/
structure DecNum where
  m : Int
  e : Nat
deriving DecidableEq, Repr

/-- Numeric value of a `DecNum`, used for comparisons (the sort in
`getRegionData` compares scores numerically). -/
def DecNum.toRat (d : DecNum) : ℚ := (d.m : ℚ) / (10 : ℚ) ^ d.e

/-- The JSON value universe handled by `JSON.parse` / `JSON.stringify`
as used in this module. -/
inductive Json where
  | null : Json
  | bool (b : Bool) : Json
  | num (v : DecNum) : Json
  | str (s : String) : Json
  | arr (xs : List Json) : Json
  | obj (kvs : List (String × Json)) : Json
deriving Repr

/-! ### Decimal digits: printing and reading -/

/-- Big-endian decimal digit characters of `n` (empty for `0`). -/
def natDigitChars (n : Nat) : List Char :=
  ((Nat.digits 10 n).map Nat.digitChar).reverse

/-- Left-pad a digit string with zeros to length at least `k`. -/
def padZeros (ds : List Char) (k : Nat) : List Char :=
  List.replicate (k - ds.length) '0' ++ ds

/-- Big-endian digits of `n` with at least `e + 1` digits. -/
def decDigits (n e : Nat) : List Char :=
  padZeros (natDigitChars n) (e + 1)

/-- Decimal rendering of a `DecNum`, the way JS renders a finite float
(sign, integer digits, and a fractional part of exactly `e` digits when
`e > 0`). -/
def printDecNum (d : DecNum) : List Char :=
  let ds := decDigits d.m.natAbs d.e
  let body :=
    if d.e = 0 then ds
    else ds.take (ds.length - d.e) ++ '.' :: ds.drop (ds.length - d.e)
  if d.m < 0 then '-' :: body else body

/-- Numeric value of a decimal digit character. -/
def digitVal (c : Char) : Nat := c.toNat - 48

/-- Consume a maximal run of decimal digits, folding them onto `acc`. -/
def takeDigits (acc : Nat) : List Char → Nat × List Char
  | c :: cs =>
    if c.isDigit then takeDigits (acc * 10 + digitVal c) cs else (acc, c :: cs)
  | [] => (acc, [])

/-- Consume a maximal run of decimal digits, folding them onto `acc`
and counting how many were consumed (for fractional parts). -/
def takeFracDigits (acc : Nat) (e : Nat) : List Char → Nat × Nat × List Char
  | c :: cs =>
    if c.isDigit then takeFracDigits (acc * 10 + digitVal c) (e + 1) cs
    else (acc, e, c :: cs)
  | [] => (acc, e, [])

/-- Parse a non-negative JSON number literal (digits, optionally a dot
followed by at least one digit). -/
def parseJsonNumPos : List Char → Option (DecNum × List Char)
  | c :: cs =>
    if c.isDigit then
      match takeDigits (digitVal c) cs with
      | (n, '.' :: c2 :: cs2) =>
        if c2.isDigit then
          match takeFracDigits n 0 (c2 :: cs2) with
          | (n2, e, rest) => some (⟨(n2 : Int), e⟩, rest)
        else none
      | (n, rest) => some (⟨(n : Int), 0⟩, rest)
    else none
  | [] => none

/-- Parse a JSON number literal, with optional leading minus sign. -/
def parseJsonNum : List Char → Option (DecNum × List Char)
  | '-' :: cs =>
    (parseJsonNumPos cs).map (fun p => (⟨-p.1.m, p.1.e⟩, p.2))
  | cs => parseJsonNumPos cs

/-! ### JSON whitespace -/

/-- The JSON whitespace characters. -/
def isWsChar (c : Char) : Bool :=
  c = ' ' || c = '\n' || c = '\t' || c = '\r'

/-- Drop leading JSON whitespace. -/
def skipWs : List Char → List Char
  | c :: cs => if isWsChar c then skipWs cs else c :: cs
  | [] => []

/-! ### JSON strings: escaping and reading -/

/-- Escape one character the way `JSON.stringify` does: quote and
backslash are escaped, control characters get their short escapes or a
`\u00XX` escape, everything else is emitted verbatim. -/
def escapeChar (c : Char) : List Char :=
  if c = '"' then ['\\', '"']
  else if c = '\\' then ['\\', '\\']
  else if c = '\n' then ['\\', 'n']
  else if c = '\r' then ['\\', 'r']
  else if c = '\t' then ['\\', 't']
  else if c = '\x08' then ['\\', 'b']
  else if c = '\x0c' then ['\\', 'f']
  else if c.toNat < 32 then
    ['\\', 'u', '0', '0', Nat.digitChar (c.toNat / 16), Nat.digitChar (c.toNat % 16)]
  else [c]

/-- Escape a whole string body. -/
def escapeString (s : List Char) : List Char :=
  s.foldr (fun c acc => escapeChar c ++ acc) []

/-- Value of a hexadecimal digit character. -/
def hexVal (c : Char) : Option Nat :=
  if c.isDigit then some (c.toNat - 48)
  else if 'a' ≤ c ∧ c ≤ 'f' then some (c.toNat - 87)
  else if 'A' ≤ c ∧ c ≤ 'F' then some (c.toNat - 55)
  else none

/-- Decode a short escape character. -/
def unescapeChar (c : Char) : Option Char :=
  if c = '"' then some '"'
  else if c = '\\' then some '\\'
  else if c = '/' then some '/'
  else if c = 'n' then some '\n'
  else if c = 'r' then some '\r'
  else if c = 't' then some '\t'
  else if c = 'b' then some '\x08'
  else if c = 'f' then some '\x0c'
  else none

/-- Parse a JSON string body after the opening quote, up to and
including the closing quote; returns the decoded characters and the
remaining input. -/
def parseStrBody : List Char → Option (List Char × List Char)
  | [] => none
  | c :: rest =>
    if c = '"' then some ([], rest)
    else if c = '\\' then
      match rest with
      | [] => none
      | d :: rest2 =>
        if d = 'u' then
          match rest2 with
          | h1 :: h2 :: h3 :: h4 :: rest3 => do
            let v1 ← hexVal h1
            let v2 ← hexVal h2
            let v3 ← hexVal h3
            let v4 ← hexVal h4
            let p ← parseStrBody rest3
            pure (Char.ofNat (4096 * v1 + 256 * v2 + 16 * v3 + v4) :: p.1, p.2)
          | _ => none
        else do
          let e ← unescapeChar d
          let p ← parseStrBody rest2
          pure (e :: p.1, p.2)
    else (parseStrBody rest).map (fun p => (c :: p.1, p.2))

/-! ### JSON printing

`JSON.stringify(x)` and `JSON.stringify(x, null, 2)` differ only in
inter-token whitespace, so the printer is parameterised by a newline /
indentation function `nl` (whitespace emitted after an opening bracket,
after each comma, and before a closing bracket, as a function of
nesting depth) and a gap `cg` emitted after the colon of each object
field. -/

mutual

def printVal (nl : Nat → List Char) (cg : List Char) (d : Nat) : Json → List Char
  | .null => "null".data
  | .bool true => "true".data
  | .bool false => "false".data
  | .num v => printDecNum v
  | .str s => '"' :: (escapeString s.data ++ ['"'])
  | .arr [] => ['[', ']']
  | .arr (x :: xs) =>
    '[' :: (nl (d + 1) ++ printVal nl cg (d + 1) x ++ printItems nl cg (d + 1) xs
      ++ nl d ++ [']'])
  | .obj [] => ['{', '}']
  | .obj (kv :: kvs) =>
    '{' :: (nl (d + 1) ++ printField nl cg (d + 1) kv ++ printFields nl cg (d + 1) kvs
      ++ nl d ++ ['}'])

def printField (nl : Nat → List Char) (cg : List Char) (d : Nat) :
    String × Json → List Char
  | (k, v) => '"' :: (escapeString k.data ++ '"' :: ':' :: (cg ++ printVal nl cg d v))

def printItems (nl : Nat → List Char) (cg : List Char) (d : Nat) : List Json → List Char
  | [] => []
  | y :: ys => ',' :: (nl d ++ printVal nl cg d y ++ printItems nl cg d ys)

def printFields (nl : Nat → List Char) (cg : List Char) (d : Nat) :
    List (String × Json) → List Char
  | [] => []
  | kv :: kvs => ',' :: (nl d ++ printField nl cg d kv ++ printFields nl cg d kvs)

end

/-- Model of `JSON.stringify(x)` (no space argument). -/
def stringifyCompact (j : Json) : String :=
  String.mk (printVal (fun _ => []) [] 0 j)

/-- Model of `JSON.stringify(x, null, 2)`. -/
def stringifyPretty2 (j : Json) : String :=
  String.mk (printVal (fun d => '\n' :: List.replicate (2 * d) ' ') [' '] 0 j)

/-! ### JSON parsing (model of `JSON.parse`) -/

mutual

def parseVal : Nat → List Char → Option (Json × List Char)
  | 0, _ => none
  | fuel + 1, cs =>
    match skipWs cs with
    | [] => none
    | c :: rest =>
      if c = 'n' then
        match rest with
        | 'u' :: 'l' :: 'l' :: r => some (.null, r)
        | _ => none
      else if c = 't' then
        match rest with
        | 'r' :: 'u' :: 'e' :: r => some (.bool true, r)
        | _ => none
      else if c = 'f' then
        match rest with
        | 'a' :: 'l' :: 's' :: 'e' :: r => some (.bool false, r)
        | _ => none
      else if c = '"' then
        (parseStrBody rest).map (fun p => (.str (String.mk p.1), p.2))
      else if c = '[' then
        match skipWs rest with
        | ']' :: r => some (.arr [], r)
        | _ => do
          let p ← parseVal fuel rest
          parseArrRest fuel [p.1] p.2
      else if c = '{' then
        match skipWs rest with
        | '}' :: r => some (.obj [], r)
        | _ => do
          let p ← parseField fuel rest
          parseObjRest fuel [p.1] p.2
      else
        (parseJsonNum (c :: rest)).map (fun p => (.num p.1, p.2))

def parseField : Nat → List Char → Option ((String × Json) × List Char)
  | 0, _ => none
  | fuel + 1, cs =>
    match skipWs cs with
    | '"' :: rest => do
      let p ← parseStrBody rest
      match skipWs p.2 with
      | ':' :: r2 => do
        let q ← parseVal fuel r2
        pure ((String.mk p.1, q.1), q.2)
      | _ => none
    | _ => none

def parseArrRest : Nat → List Json → List Char → Option (Json × List Char)
  | 0, _, _ => none
  | fuel + 1, acc, cs =>
    match skipWs cs with
    | ',' :: rest => do
      let p ← parseVal fuel rest
      parseArrRest fuel (p.1 :: acc) p.2
    | ']' :: rest => some (.arr acc.reverse, rest)
    | _ => none

def parseObjRest : Nat → List (String × Json) → List Char → Option (Json × List Char)
  | 0, _, _ => none
  | fuel + 1, acc, cs =>
    match skipWs cs with
    | ',' :: rest => do
      let p ← parseField fuel rest
      parseObjRest fuel (p.1 :: acc) p.2
    | '}' :: rest => some (.obj acc.reverse, rest)
    | _ => none

end

/-- Model of `JSON.parse`: parse one value, allow trailing whitespace
only; `none` models the exception thrown on malformed input. -/
def parseJson (s : String) : Option Json :=
  match parseVal (s.data.length + 1) s.data with
  | some (j, rest) => if skipWs rest = [] then some j else none
  | none => none

/-! ### Whitespace lemmas -/

/-- A character list consisting only of JSON whitespace. -/
def WsOnly (w : List Char) : Prop := ∀ c ∈ w, isWsChar c = true

/-- The continuation after a printed value must not begin with a digit
or a dot (so that a printed number literal is not extended); every
separator the printer emits satisfies this. -/
def SepHead : List Char → Prop
  | [] => True
  | c :: _ => c.isDigit = false ∧ c ≠ '.'

theorem wsOnly_nil : WsOnly [] := by intro c hc; cases hc

theorem skipWs_append {w : List Char} (hw : WsOnly w) (cs : List Char) :
    skipWs (w ++ cs) = skipWs cs := by
  induction w with
  | nil => rfl
  | cons c w ih =>
    have hc : isWsChar c = true := hw c (List.mem_cons_self ..)
    simp only [List.cons_append, skipWs, hc, if_true]
    exact ih (fun d hd => hw d (List.mem_cons_of_mem _ hd))

theorem skipWs_not_ws {c : Char} (h : isWsChar c = false) (cs : List Char) :
    skipWs (c :: cs) = c :: cs := by
  simp [skipWs, h]

/-! ### Digit lemmas -/

theorem digitVal_digitChar : ∀ d, d < 10 → digitVal (Nat.digitChar d) = d := by
  decide

theorem isDigit_digitChar : ∀ d, d < 10 → (Nat.digitChar d).isDigit = true := by
  decide

theorem natDigitChars_digits {c : Char} (h : c ∈ natDigitChars n) : c.isDigit = true := by
  unfold natDigitChars at h
  rw [List.mem_reverse, List.mem_map] at h
  obtain ⟨d, hd, rfl⟩ := h
  exact isDigit_digitChar d (Nat.digits_lt_base (by norm_num) hd)

theorem decDigits_digits {n e : Nat} {c : Char} (h : c ∈ decDigits n e) :
    c.isDigit = true := by
  unfold decDigits padZeros at h
  rcases List.mem_append.mp h with h | h
  · rw [List.eq_of_mem_replicate h]; decide
  · exact natDigitChars_digits h

theorem decDigits_length {n e : Nat} : e + 1 ≤ (decDigits n e).length := by
  unfold decDigits padZeros
  rw [List.length_append, List.length_replicate]
  omega

/-- The digit-folding step used by the parser. -/
def digitStep (a : Nat) (c : Char) : Nat := a * 10 + digitVal c

theorem foldl_digitChars (L : List Nat) (hL : ∀ d ∈ L, d < 10) (acc : Nat) :
    List.foldl digitStep acc ((L.map Nat.digitChar).reverse)
      = acc * 10 ^ L.length + Nat.ofDigits 10 L := by
  induction L generalizing acc with
  | nil => simp [Nat.ofDigits]
  | cons d L ih =>
    have hd : d < 10 := hL d (List.mem_cons_self ..)
    have hL' : ∀ x ∈ L, x < 10 := fun x hx => hL x (List.mem_cons_of_mem _ hx)
    simp only [List.map_cons, List.reverse_cons, List.foldl_append, List.foldl_cons,
      List.foldl_nil]
    rw [ih hL' acc]
    simp only [digitStep, digitVal_digitChar d hd, Nat.ofDigits_cons, List.length_cons]
    ring

theorem foldl_replicate_zero (k : Nat) (acc : Nat) :
    List.foldl digitStep acc (List.replicate k '0') = acc * 10 ^ k := by
  induction k generalizing acc with
  | zero => simp
  | succ k ih =>
    rw [List.replicate_succ, List.foldl_cons, ih]
    simp only [digitStep]
    have : digitVal '0' = 0 := by decide
    rw [this]
    ring

theorem foldl_decDigits (n e : Nat) (acc : Nat) :
    List.foldl digitStep acc (decDigits n e)
      = acc * 10 ^ (decDigits n e).length + n := by
  unfold decDigits padZeros natDigitChars
  rw [List.foldl_append, foldl_replicate_zero,
    foldl_digitChars _ (fun d hd => Nat.digits_lt_base (by norm_num) hd),
    Nat.ofDigits_digits, List.length_append, List.length_replicate,
    List.length_reverse, List.length_map, pow_add]
  ring

/-- `takeDigits` consumes exactly a run of digits followed by a
non-digit (or the end of input), folding them up. -/
theorem takeDigits_spec (ds : List Char) (hds : ∀ c ∈ ds, c.isDigit = true) :
    ∀ rest, (∀ c cs, rest = c :: cs → c.isDigit = false) → ∀ acc,
      takeDigits acc (ds ++ rest) = (List.foldl digitStep acc ds, rest) := by
  induction ds with
  | nil =>
    intro rest hrest acc
    cases rest with
    | nil => simp [takeDigits]
    | cons c cs => simp [takeDigits, hrest c cs rfl]
  | cons d ds ih =>
    intro rest hrest acc
    have hd : d.isDigit = true := hds d (List.mem_cons_self ..)
    simp only [List.cons_append, takeDigits, hd, if_true, List.foldl_cons]
    exact ih (fun c hc => hds c (List.mem_cons_of_mem _ hc)) rest hrest _

theorem takeFracDigits_spec (ds : List Char) (hds : ∀ c ∈ ds, c.isDigit = true) :
    ∀ rest, (∀ c cs, rest = c :: cs → c.isDigit = false) → ∀ acc e,
      takeFracDigits acc e (ds ++ rest)
        = (List.foldl digitStep acc ds, e + ds.length, rest) := by
  induction ds with
  | nil =>
    intro rest hrest acc e
    cases rest with
    | nil => simp [takeFracDigits]
    | cons c cs => simp [takeFracDigits, hrest c cs rfl]
  | cons d ds ih =>
    intro rest hrest acc e
    have hd : d.isDigit = true := hds d (List.mem_cons_self ..)
    simp only [List.cons_append, takeFracDigits, hd, if_true, List.foldl_cons,
      List.append_eq]
    rw [ih (fun c hc => hds c (List.mem_cons_of_mem _ hc)) rest hrest _ _]
    simp only [digitStep, List.length_cons]
    have he : e + 1 + ds.length = e + (ds.length + 1) := by omega
    rw [he]

theorem foldl_decDigits_zero (n e : Nat) :
    List.foldl digitStep 0 (decDigits n e) = n := by
  rw [foldl_decDigits]; simp

theorem sepHead_not_digit {rest : List Char} (h : SepHead rest) :
    ∀ c cs, rest = c :: cs → c.isDigit = false := by
  intro c cs hr; subst hr; exact h.1

theorem sepHead_not_dot {rest : List Char} (h : SepHead rest) :
    ∀ c cs, rest = c :: cs → c ≠ '.' := by
  intro c cs hr; subst hr; exact h.2

/-- Reading back the digit part printed for `m / 10 ^ e` (without the
sign) recovers exactly the magnitude and the exponent. -/
theorem parseJsonNumPos_body (n e : Nat) (rest : List Char) (hrest : SepHead rest) :
    parseJsonNumPos
      ((if e = 0 then decDigits n e
        else (decDigits n e).take ((decDigits n e).length - e)
          ++ '.' :: (decDigits n e).drop ((decDigits n e).length - e)) ++ rest)
      = some (⟨(n : Int), e⟩, rest) := by
  have hlen : e + 1 ≤ (decDigits n e).length := decDigits_length
  by_cases he : e = 0
  · subst he
    simp only [eq_self_iff_true, if_true]
    obtain ⟨c, ds₁, hds⟩ : ∃ c ds₁, decDigits n 0 = c :: ds₁ := by
      cases h : decDigits n 0 with
      | nil => rw [h] at hlen; simp at hlen
      | cons c ds₁ => exact ⟨c, ds₁, rfl⟩
    have hcdig : c.isDigit = true := decDigits_digits (hds ▸ List.mem_cons_self ..)
    have hds₁ : ∀ x ∈ ds₁, x.isDigit = true := fun x hx =>
      decDigits_digits (hds ▸ List.mem_cons_of_mem _ hx)
    rw [hds, List.cons_append]
    simp only [parseJsonNumPos, hcdig, if_true]
    rw [takeDigits_spec ds₁ hds₁ rest (sepHead_not_digit hrest) _]
    have hval : List.foldl digitStep (digitVal c) ds₁ = n := by
      have h0 : digitStep 0 c = digitVal c := by simp [digitStep]
      calc List.foldl digitStep (digitVal c) ds₁
          = List.foldl digitStep 0 (c :: ds₁) := by rw [List.foldl_cons, h0]
        _ = n := by rw [← hds, foldl_decDigits_zero]
    rw [hval]
    cases rest with
    | nil => rfl
    | cons r rest' =>
      have hr : r ≠ '.' := sepHead_not_dot hrest r rest' rfl
      split
      · rename_i x nn c2 cs2 h
        injection h with h1 h2
        injection h2 with h3 h4
        exact absurd h3 hr
      · rename_i x1 nn rr hno heq
        injection heq with h1 h2
        rw [← h1, ← h2]
  · simp only [if_neg he]
    set ds := decDigits n e with hdsdef
    set L := ds.length with hL
    have htl : 1 ≤ L - e := by omega
    obtain ⟨c, t₁, ht⟩ : ∃ c t₁, ds.take (L - e) = c :: t₁ := by
      cases h : ds.take (L - e) with
      | nil =>
        have : (ds.take (L - e)).length = L - e := by
          rw [List.length_take]; omega
        rw [h] at this; simp at this; omega
      | cons c t₁ => exact ⟨c, t₁, rfl⟩
    have htake_mem : ∀ x ∈ ds.take (L - e), x.isDigit = true := fun x hx =>
      decDigits_digits (List.mem_of_mem_take hx)
    have hcdig : c.isDigit = true := htake_mem c (ht ▸ List.mem_cons_self ..)
    have ht₁ : ∀ x ∈ t₁, x.isDigit = true := fun x hx =>
      htake_mem x (ht ▸ List.mem_cons_of_mem _ hx)
    have hdroplen : (ds.drop (L - e)).length = e := by
      rw [List.length_drop]; omega
    obtain ⟨c2, dr₁, hdr⟩ : ∃ c2 dr₁, ds.drop (L - e) = c2 :: dr₁ := by
      cases h : ds.drop (L - e) with
      | nil => rw [h] at hdroplen; simp at hdroplen; omega
      | cons c2 dr₁ => exact ⟨c2, dr₁, rfl⟩
    have hdrop_mem : ∀ x ∈ ds.drop (L - e), x.isDigit = true := fun x hx =>
      decDigits_digits (List.mem_of_mem_drop hx)
    have hc2dig : c2.isDigit = true := hdrop_mem c2 (hdr ▸ List.mem_cons_self ..)
    rw [ht, List.cons_append, List.cons_append]
    simp only [parseJsonNumPos, hcdig, if_true]
    have harr : t₁ ++ '.' :: ds.drop (L - e) ++ rest
        = t₁ ++ ('.' :: (ds.drop (L - e) ++ rest)) := by simp
    rw [harr, takeDigits_spec t₁ ht₁ ('.' :: (ds.drop (L - e) ++ rest))
      (by intro x xs hx; injection hx with h1 h2; subst h1; decide) _]
    rw [hdr, List.cons_append]
    simp only [hc2dig, if_true]
    rw [← List.cons_append, ← hdr,
      takeFracDigits_spec (ds.drop (L - e)) hdrop_mem rest (sepHead_not_digit hrest) _ _]
    have hval : List.foldl digitStep (List.foldl digitStep (digitVal c) t₁) (ds.drop (L - e)) = n := by
      have h0 : digitStep 0 c = digitVal c := by simp [digitStep]
      calc List.foldl digitStep (List.foldl digitStep (digitVal c) t₁) (ds.drop (L - e))
          = List.foldl digitStep 0 ((c :: t₁) ++ ds.drop (L - e)) := by
            rw [List.foldl_append, List.foldl_cons, h0]
        _ = List.foldl digitStep 0 ds := by rw [← ht, List.take_append_drop]
        _ = n := foldl_decDigits_zero n e
    rw [hval]
    simp [hdroplen]

theorem body_head_digit (n e : Nat) :
    ∃ c cs,
      (if e = 0 then decDigits n e
       else (decDigits n e).take ((decDigits n e).length - e)
         ++ '.' :: (decDigits n e).drop ((decDigits n e).length - e)) = c :: cs
      ∧ c.isDigit = true := by
  have hlen : e + 1 ≤ (decDigits n e).length := decDigits_length
  by_cases he : e = 0
  · subst he
    simp only [eq_self_iff_true, if_true]
    cases h : decDigits n 0 with
    | nil => rw [h] at hlen; simp at hlen
    | cons c cs =>
      exact ⟨c, cs, rfl, decDigits_digits (h ▸ List.mem_cons_self ..)⟩
  · simp only [if_neg he]
    cases h : (decDigits n e).take ((decDigits n e).length - e) with
    | nil =>
      have hl : ((decDigits n e).take ((decDigits n e).length - e)).length
          = (decDigits n e).length - e := by
        rw [List.length_take]; omega
      rw [h] at hl; simp at hl; omega
    | cons c cs =>
      refine ⟨c, cs ++ '.' :: (decDigits n e).drop ((decDigits n e).length - e),
        rfl, ?_⟩
      exact decDigits_digits (List.mem_of_mem_take (h ▸ List.mem_cons_self ..))

/-- Reading back a printed `DecNum` recovers it exactly, provided the
continuation does not begin with a digit or a dot. -/
theorem parseJsonNum_printDecNum (d : DecNum) (rest : List Char) (hrest : SepHead rest) :
    parseJsonNum (printDecNum d ++ rest) = some (d, rest) := by
  obtain ⟨m, e⟩ := d
  obtain ⟨c, cs, hbody, hcdig⟩ := body_head_digit m.natAbs e
  have hpos := parseJsonNumPos_body m.natAbs e rest hrest
  rw [hbody, List.cons_append] at hpos
  have hcne : c ≠ '-' := by
    intro h; rw [h] at hcdig; exact absurd hcdig (by decide)
  simp only [printDecNum]
  by_cases hm : m < 0
  · rw [if_pos hm, hbody, List.cons_append, List.cons_append]
    have h1 : parseJsonNum ('-' :: (c :: (cs ++ rest)))
        = (parseJsonNumPos (c :: (cs ++ rest))).map (fun p => (⟨-p.1.m, p.1.e⟩, p.2)) := rfl
    rw [h1, hpos]
    have hneg : -((m.natAbs : Int)) = m := by
      rw [Int.ofNat_natAbs_of_nonpos (le_of_lt hm)]; ring
    show some ((⟨-((m.natAbs : Int)), e⟩ : DecNum), rest) = some (⟨m, e⟩, rest)
    rw [hneg]
  · rw [if_neg hm, hbody, List.cons_append]
    have habs : ((m.natAbs : Int)) = m := Int.natAbs_of_nonneg (not_lt.mp hm)
    rw [parseJsonNum.eq_def]
    split
    · rename_i cs2 heq
      injection heq with h1 h2
      exact absurd h1 hcne
    · rw [hpos, habs]

/-! ### String escaping round trip -/

theorem hexVal_digitChar : ∀ n, n < 16 → hexVal (Nat.digitChar n) = some n := by
  decide

theorem escapeString_nil : escapeString [] = [] := rfl

theorem escapeString_cons (c : Char) (s : List Char) :
    escapeString (c :: s) = escapeChar c ++ escapeString s := rfl

theorem parseStrBody_quote (rest : List Char) :
    parseStrBody ('"' :: rest) = some ([], rest) := by
  rw [parseStrBody.eq_def]; simp

theorem parseStrBody_other (c : Char) (rest : List Char) (hq : ¬c = '"') (hb : ¬c = '\\') :
    parseStrBody (c :: rest) = (parseStrBody rest).map (fun p => (c :: p.1, p.2)) := by
  rw [parseStrBody.eq_def]; simp only [if_neg hq, if_neg hb]

theorem parseStrBody_u (h1 h2 h3 h4 : Char) (rest : List Char) :
    parseStrBody ('\\' :: 'u' :: h1 :: h2 :: h3 :: h4 :: rest)
      = (hexVal h1).bind (fun v1 => (hexVal h2).bind (fun v2 =>
          (hexVal h3).bind (fun v3 => (hexVal h4).bind (fun v4 =>
            (parseStrBody rest).bind (fun p =>
              some (Char.ofNat (4096 * v1 + 256 * v2 + 16 * v3 + v4) :: p.1, p.2)))))) := by
  rw [parseStrBody.eq_def]; simp

/-- Reading back an escaped string body (with its closing quote)
recovers the original characters. -/
theorem parseStrBody_escape (s : List Char) (rest : List Char) :
    parseStrBody (escapeString s ++ '"' :: rest) = some (s, rest) := by
  induction s with
  | nil => rw [escapeString_nil, List.nil_append, parseStrBody_quote]
  | cons c s ih =>
    rw [escapeString_cons, List.append_assoc]
    by_cases h1 : c = '"'
    · subst h1
      rw [show escapeChar '"' = ['\\', '"'] from rfl]
      simp only [List.cons_append, List.nil_append]
      rw [parseStrBody.eq_def]
      simp [unescapeChar, ih]
    · by_cases h2 : c = '\\'
      · subst h2
        rw [show escapeChar '\\' = ['\\', '\\'] from rfl]
        simp only [List.cons_append, List.nil_append]
        rw [parseStrBody.eq_def]
        simp [unescapeChar, ih]
      · by_cases h3 : c = '\n'
        · subst h3
          rw [show escapeChar '\n' = ['\\', 'n'] from rfl]
          simp only [List.cons_append, List.nil_append]
          rw [parseStrBody.eq_def]
          simp [unescapeChar, ih]
        · by_cases h4 : c = '\r'
          · subst h4
            rw [show escapeChar '\r' = ['\\', 'r'] from rfl]
            simp only [List.cons_append, List.nil_append]
            rw [parseStrBody.eq_def]
            simp [unescapeChar, ih]
          · by_cases h5 : c = '\t'
            · subst h5
              rw [show escapeChar '\t' = ['\\', 't'] from rfl]
              simp only [List.cons_append, List.nil_append]
              rw [parseStrBody.eq_def]
              simp [unescapeChar, ih]
            · by_cases h6 : c = '\x08'
              · subst h6
                rw [show escapeChar '\x08' = ['\\', 'b'] from rfl]
                simp only [List.cons_append, List.nil_append]
                rw [parseStrBody.eq_def]
                simp [unescapeChar, ih]
              · by_cases h7 : c = '\x0c'
                · subst h7
                  rw [show escapeChar '\x0c' = ['\\', 'f'] from rfl]
                  simp only [List.cons_append, List.nil_append]
                  rw [parseStrBody.eq_def]
                  simp [unescapeChar, ih]
                · by_cases h8 : c.toNat < 32
                  · have he : escapeChar c = ['\\', 'u', '0', '0',
                        Nat.digitChar (c.toNat / 16), Nat.digitChar (c.toNat % 16)] := by
                      rw [escapeChar, if_neg h1, if_neg h2, if_neg h3, if_neg h4,
                        if_neg h5, if_neg h6, if_neg h7, if_pos h8]
                    rw [he]
                    simp only [List.cons_append, List.nil_append]
                    rw [parseStrBody_u]
                    rw [hexVal_digitChar _ (by omega : c.toNat / 16 < 16),
                      hexVal_digitChar _ (by omega : c.toNat % 16 < 16),
                      show hexVal '0' = some 0 from by decide, ih]
                    have hc : 16 * (c.toNat / 16) + c.toNat % 16 = c.toNat := by omega
                    simp [hc]
                  · have he : escapeChar c = [c] := by
                      rw [escapeChar, if_neg h1, if_neg h2, if_neg h3, if_neg h4,
                        if_neg h5, if_neg h6, if_neg h7, if_neg h8]
                    rw [he]
                    simp only [List.cons_append, List.nil_append]
                    rw [parseStrBody_other c _ h1 h2, ih]
                    rfl

/-! ### Fuel accounting for the parser -/

mutual

def szJ : Json → Nat
  | .arr xs => szItems xs
  | .obj kvs => szFields kvs
  | _ => 1

def szItems : List Json → Nat
  | [] => 1
  | x :: xs => 1 + szJ x + szItems xs

def szFields : List (String × Json) → Nat
  | [] => 1
  | kv :: kvs => 2 + szJ kv.2 + szFields kvs

end

theorem szItems_pos (xs : List Json) : 1 ≤ szItems xs := by
  cases xs with
  | nil => simp [szItems]
  | cons x xs => simp only [szItems]; omega

theorem szFields_pos (kvs : List (String × Json)) : 1 ≤ szFields kvs := by
  cases kvs with
  | nil => simp [szFields]
  | cons kv kvs => simp only [szFields]; omega

theorem szJ_pos (j : Json) : 1 ≤ szJ j := by
  cases j <;> simp [szJ, szItems_pos, szFields_pos]

/-! ### Character class facts -/

theorem ws_char_cases {c : Char} (h : isWsChar c = true) :
    c = ' ' ∨ c = '\n' ∨ c = '\t' ∨ c = '\r' := by
  revert h
  simp only [isWsChar, Bool.or_eq_true, decide_eq_true_eq]
  tauto

theorem isDigit_not_ws {c : Char} (h : c.isDigit = true) : isWsChar c = false := by
  by_contra hw
  have hw' : isWsChar c = true := by
    cases hws : isWsChar c with
    | false => exact absurd hws hw
    | true => rfl
  rcases ws_char_cases hw' with rfl | rfl | rfl | rfl <;> exact absurd h (by decide)

theorem ws_not_digit_dot {c : Char} (h : isWsChar c = true) :
    c.isDigit = false ∧ c ≠ '.' := by
  have h4 := ws_char_cases h
  constructor
  · rcases h4 with rfl | rfl | rfl | rfl <;> decide
  · rcases h4 with rfl | rfl | rfl | rfl <;> decide

/-- The separator shapes that follow a printed value inside an array or
object: a comma, whitespace, or a closing bracket. -/
theorem sepHead_sep {u : List Char} (hu : WsOnly u) (c : Char)
    (hc : c.isDigit = false ∧ c ≠ '.') (cs : List Char) :
    SepHead (u ++ c :: cs) := by
  cases u with
  | nil => exact hc
  | cons a u =>
    have ha := hu a (List.mem_cons_self ..)
    exact ws_not_digit_dot ha

theorem sepHead_printItems (nl : Nat → List Char) (cg : List Char) (d : Nat)
    (xs : List Json) {u : List Char} (hu : WsOnly u) (c : Char)
    (hc : c.isDigit = false ∧ c ≠ '.') (cs : List Char) :
    SepHead (printItems nl cg d xs ++ (u ++ c :: cs)) := by
  cases xs with
  | nil =>
    rw [show printItems nl cg d [] = [] from rfl, List.nil_append]
    exact sepHead_sep hu c hc cs
  | cons y ys =>
    rw [show printItems nl cg d (y :: ys)
      = ',' :: (nl d ++ printVal nl cg d y ++ printItems nl cg d ys) from rfl,
      List.cons_append]
    exact ⟨by decide, by decide⟩

theorem sepHead_printFields (nl : Nat → List Char) (cg : List Char) (d : Nat)
    (kvs : List (String × Json)) {u : List Char} (hu : WsOnly u) (c : Char)
    (hc : c.isDigit = false ∧ c ≠ '.') (cs : List Char) :
    SepHead (printFields nl cg d kvs ++ (u ++ c :: cs)) := by
  cases kvs with
  | nil =>
    rw [show printFields nl cg d [] = [] from rfl, List.nil_append]
    exact sepHead_sep hu c hc cs
  | cons kv kvs =>
    rw [show printFields nl cg d (kv :: kvs)
      = ',' :: (nl d ++ printField nl cg d kv ++ printFields nl cg d kvs) from rfl,
      List.cons_append]
    exact ⟨by decide, by decide⟩

/-- Head of a printed number: a minus sign or a digit. -/
theorem printDecNum_head (v : DecNum) :
    ∃ c cs, printDecNum v = c :: cs ∧ (c = '-' ∨ c.isDigit = true) := by
  obtain ⟨c, cs, hbody, hdig⟩ := body_head_digit v.m.natAbs v.e
  simp only [printDecNum]
  by_cases hm : v.m < 0
  · rw [if_pos hm]
    exact ⟨'-', _, rfl, Or.inl rfl⟩
  · rw [if_neg hm, hbody]
    exact ⟨c, cs, rfl, Or.inr hdig⟩

/-! ### One-step unfolding of the parser

The fuel-indexed parsers are unfolded through explicit body functions,
so that the scrutinee `skipWs cs` is accessible to rewriting. -/

def parseValCase (fuel : Nat) (c : Char) (rest : List Char) : Option (Json × List Char) :=
  if c = 'n' then
    match rest with
    | 'u' :: 'l' :: 'l' :: r => some (.null, r)
    | _ => none
  else if c = 't' then
    match rest with
    | 'r' :: 'u' :: 'e' :: r => some (.bool true, r)
    | _ => none
  else if c = 'f' then
    match rest with
    | 'a' :: 'l' :: 's' :: 'e' :: r => some (.bool false, r)
    | _ => none
  else if c = '"' then
    (parseStrBody rest).map (fun p => (.str (String.mk p.1), p.2))
  else if c = '[' then
    match skipWs rest with
    | ']' :: r => some (.arr [], r)
    | _ => do
      let p ← parseVal fuel rest
      parseArrRest fuel [p.1] p.2
  else if c = '{' then
    match skipWs rest with
    | '}' :: r => some (.obj [], r)
    | _ => do
      let p ← parseField fuel rest
      parseObjRest fuel [p.1] p.2
  else
    (parseJsonNum (c :: rest)).map (fun p => (.num p.1, p.2))

def parseValBody (fuel : Nat) (cs : List Char) : Option (Json × List Char) :=
  match skipWs cs with
  | [] => none
  | c :: rest => parseValCase fuel c rest

def parseFieldBody (fuel : Nat) (cs : List Char) :
    Option ((String × Json) × List Char) :=
  match skipWs cs with
  | '"' :: rest => do
    let p ← parseStrBody rest
    match skipWs p.2 with
    | ':' :: r2 => do
      let q ← parseVal fuel r2
      pure ((String.mk p.1, q.1), q.2)
    | _ => none
  | _ => none

def parseArrRestBody (fuel : Nat) (acc : List Json) (cs : List Char) :
    Option (Json × List Char) :=
  match skipWs cs with
  | ',' :: rest => do
    let p ← parseVal fuel rest
    parseArrRest fuel (p.1 :: acc) p.2
  | ']' :: rest => some (.arr acc.reverse, rest)
  | _ => none

def parseObjRestBody (fuel : Nat) (acc : List (String × Json)) (cs : List Char) :
    Option (Json × List Char) :=
  match skipWs cs with
  | ',' :: rest => do
    let p ← parseField fuel rest
    parseObjRest fuel (p.1 :: acc) p.2
  | '}' :: rest => some (.obj acc.reverse, rest)
  | _ => none

theorem parseVal_succ (fuel : Nat) (cs : List Char) :
    parseVal (fuel + 1) cs = parseValBody fuel cs := by
  rw [parseVal.eq_def]; rfl

theorem parseField_succ (fuel : Nat) (cs : List Char) :
    parseField (fuel + 1) cs = parseFieldBody fuel cs := by
  rw [parseField.eq_def]; rfl

theorem parseArrRest_succ (fuel : Nat) (acc : List Json) (cs : List Char) :
    parseArrRest (fuel + 1) acc cs = parseArrRestBody fuel acc cs := by
  rw [parseArrRest.eq_def]; rfl

theorem parseObjRest_succ (fuel : Nat) (acc : List (String × Json)) (cs : List Char) :
    parseObjRest (fuel + 1) acc cs = parseObjRestBody fuel acc cs := by
  rw [parseObjRest.eq_def]; rfl

theorem parseValBody_cons (fuel : Nat) {cs : List Char} {c : Char} {tail : List Char}
    (h : skipWs cs = c :: tail) : parseValBody fuel cs = parseValCase fuel c tail := by
  unfold parseValBody; rw [h]

theorem parseFieldBody_quote (fuel : Nat) {cs tail : List Char}
    (h : skipWs cs = '"' :: tail) :
    parseFieldBody fuel cs
      = (parseStrBody tail).bind (fun p =>
          match skipWs p.2 with
          | ':' :: r2 => (parseVal fuel r2).bind (fun q => some ((String.mk p.1, q.1), q.2))
          | _ => none) := by
  unfold parseFieldBody; rw [h]; rfl

theorem parseArrRestBody_comma (fuel : Nat) (acc : List Json) {cs tail : List Char}
    (h : skipWs cs = ',' :: tail) :
    parseArrRestBody fuel acc cs
      = (parseVal fuel tail).bind (fun p => parseArrRest fuel (p.1 :: acc) p.2) := by
  unfold parseArrRestBody; rw [h]; rfl

theorem parseArrRestBody_close (fuel : Nat) (acc : List Json) {cs tail : List Char}
    (h : skipWs cs = ']' :: tail) :
    parseArrRestBody fuel acc cs = some (.arr acc.reverse, tail) := by
  unfold parseArrRestBody; rw [h]; rfl

theorem parseObjRestBody_comma (fuel : Nat) (acc : List (String × Json)) {cs tail : List Char}
    (h : skipWs cs = ',' :: tail) :
    parseObjRestBody fuel acc cs
      = (parseField fuel tail).bind (fun p => parseObjRest fuel (p.1 :: acc) p.2) := by
  unfold parseObjRestBody; rw [h]; rfl

theorem parseObjRestBody_close (fuel : Nat) (acc : List (String × Json)) {cs tail : List Char}
    (h : skipWs cs = '}' :: tail) :
    parseObjRestBody fuel acc cs = some (.obj acc.reverse, tail) := by
  unfold parseObjRestBody; rw [h]; rfl

theorem optBind_some {α β : Type} (a : α) (f : α → Option β) :
    Option.bind (some a) f = f a := rfl

theorem optBindM_some {α β : Type} (a : α) (f : α → Option β) :
    (some a >>= f) = f a := rfl

/-- Head of any printed value: a non-whitespace character that is not a
closing bracket. -/
theorem printVal_head (nl : Nat → List Char) (cg : List Char) (d : Nat) (j : Json) :
    ∃ c cs, printVal nl cg d j = c :: cs ∧ isWsChar c = false ∧ c ≠ ']' := by
  cases j with
  | null => exact ⟨'n', _, rfl, by decide, by decide⟩
  | bool b =>
    cases b with
    | true => exact ⟨'t', _, rfl, by decide, by decide⟩
    | false => exact ⟨'f', _, rfl, by decide, by decide⟩
  | num v =>
    obtain ⟨c, cs, hv, hstart⟩ := printDecNum_head v
    refine ⟨c, cs, hv, ?_, ?_⟩
    · rcases hstart with rfl | hd
      · decide
      · exact isDigit_not_ws hd
    · rcases hstart with rfl | hd
      · decide
      · intro he; rw [he] at hd; exact absurd hd (by decide)
  | str s => exact ⟨'"', _, rfl, by decide, by decide⟩
  | arr xs =>
    cases xs with
    | nil => exact ⟨'[', _, rfl, by decide, by decide⟩
    | cons x xs => exact ⟨'[', _, rfl, by decide, by decide⟩
  | obj kvs =>
    cases kvs with
    | nil => exact ⟨'{', _, rfl, by decide, by decide⟩
    | cons kv kvs => exact ⟨'{', _, rfl, by decide, by decide⟩

/-- Main round-trip invariant: with enough fuel, the parser consumes a
printed value (preceded by any whitespace) and returns exactly that
value, leaving the continuation untouched; and similarly for the
element and field loops. -/
theorem parse_print (nl : Nat → List Char) (cg : List Char)
    (hnl : ∀ d, WsOnly (nl d)) (hcg : WsOnly cg) :
    ∀ fuel : Nat,
      (∀ (d : Nat) (j : Json) (w rest : List Char), WsOnly w → SepHead rest →
        szJ j ≤ fuel →
        parseVal fuel (w ++ (printVal nl cg d j ++ rest)) = some (j, rest))
      ∧ (∀ (d : Nat) (xs acc : List Json) (u rest : List Char),
          WsOnly u → SepHead rest → szItems xs ≤ fuel →
          parseArrRest fuel acc (printItems nl cg d xs ++ (u ++ ']' :: rest))
            = some (.arr (acc.reverse ++ xs), rest))
      ∧ (∀ (d : Nat) (k : String) (v : Json) (w rest : List Char),
          WsOnly w → SepHead rest → 1 + szJ v ≤ fuel →
          parseField fuel (w ++ (printField nl cg d (k, v) ++ rest))
            = some ((k, v), rest))
      ∧ (∀ (d : Nat) (kvs acc : List (String × Json)) (u rest : List Char),
          WsOnly u → SepHead rest → szFields kvs ≤ fuel →
          parseObjRest fuel acc (printFields nl cg d kvs ++ (u ++ '}' :: rest))
            = some (.obj (acc.reverse ++ kvs), rest)) := by
  intro fuel
  induction fuel with
  | zero =>
    refine ⟨?_, ?_, ?_, ?_⟩
    · intro d j w rest _ _ hsz
      exact absurd hsz (by have := szJ_pos j; omega)
    · intro d xs acc u rest _ _ hsz
      exact absurd hsz (by have := szItems_pos xs; omega)
    · intro d k v w rest _ _ hsz
      exact absurd hsz (by have := szJ_pos v; omega)
    · intro d kvs acc u rest _ _ hsz
      exact absurd hsz (by have := szFields_pos kvs; omega)
  | succ fuel IH =>
    obtain ⟨IHA, IHB, IHC, IHD⟩ := IH
    refine ⟨?_, ?_, ?_, ?_⟩
    · -- parseVal
      intro d j w rest hw hrest hsz
      cases j with
      | null =>
        have hskip : skipWs (w ++ (printVal nl cg d .null ++ rest))
            = 'n' :: ('u' :: 'l' :: 'l' :: rest) := by
          rw [show printVal nl cg d .null = ['n', 'u', 'l', 'l'] from rfl,
            skipWs_append hw]
          simp only [List.cons_append, List.nil_append]
          exact skipWs_not_ws (by decide) _
        rw [parseVal_succ, parseValBody_cons fuel hskip]
        simp [parseValCase]
      | bool b =>
        cases b with
        | true =>
          have hskip : skipWs (w ++ (printVal nl cg d (.bool true) ++ rest))
              = 't' :: ('r' :: 'u' :: 'e' :: rest) := by
            rw [show printVal nl cg d (.bool true) = ['t', 'r', 'u', 'e'] from rfl,
              skipWs_append hw]
            simp only [List.cons_append, List.nil_append]
            exact skipWs_not_ws (by decide) _
          rw [parseVal_succ, parseValBody_cons fuel hskip]
          simp [parseValCase]
        | false =>
          have hskip : skipWs (w ++ (printVal nl cg d (.bool false) ++ rest))
              = 'f' :: ('a' :: 'l' :: 's' :: 'e' :: rest) := by
            rw [show printVal nl cg d (.bool false) = ['f', 'a', 'l', 's', 'e'] from rfl,
              skipWs_append hw]
            simp only [List.cons_append, List.nil_append]
            exact skipWs_not_ws (by decide) _
          rw [parseVal_succ, parseValBody_cons fuel hskip]
          simp [parseValCase]
      | num v =>
        obtain ⟨c, cs, hv, hstart⟩ := printDecNum_head v
        have hcw : isWsChar c = false := by
          rcases hstart with rfl | hd
          · decide
          · exact isDigit_not_ws hd
        have hskip : skipWs (w ++ (printVal nl cg d (.num v) ++ rest))
            = c :: (cs ++ rest) := by
          rw [show printVal nl cg d (.num v) = printDecNum v from rfl,
            skipWs_append hw, hv, List.cons_append]
          exact skipWs_not_ws hcw _
        rw [parseVal_succ, parseValBody_cons fuel hskip]
        have hne : ∀ x : Char, x.isDigit = false → x ≠ '-' → ¬(c = x) := by
          intro x hxd hxm he
          subst he
          rcases hstart with rfl | hd
          · exact hxm rfl
          · rw [hd] at hxd; cases hxd
        rw [parseValCase.eq_def, if_neg (hne 'n' (by decide) (by decide)),
          if_neg (hne 't' (by decide) (by decide)),
          if_neg (hne 'f' (by decide) (by decide)),
          if_neg (hne '"' (by decide) (by decide)),
          if_neg (hne '[' (by decide) (by decide)),
          if_neg (hne '{' (by decide) (by decide)),
          ← List.cons_append, ← hv, parseJsonNum_printDecNum v rest hrest]
        rfl
      | str s =>
        have hskip : skipWs (w ++ (printVal nl cg d (.str s) ++ rest))
            = '"' :: (escapeString s.data ++ '"' :: rest) := by
          rw [show printVal nl cg d (.str s)
            = '"' :: (escapeString s.data ++ ['"']) from rfl, skipWs_append hw]
          simp only [List.cons_append, List.append_assoc, List.nil_append]
          exact skipWs_not_ws (by decide) _
        rw [parseVal_succ, parseValBody_cons fuel hskip]
        rw [parseValCase.eq_def, if_neg (by decide), if_neg (by decide), if_neg (by decide),
          if_pos rfl, parseStrBody_escape]
        rfl
      | arr xs =>
        cases xs with
        | nil =>
          have hskip : skipWs (w ++ (printVal nl cg d (.arr []) ++ rest))
              = '[' :: (']' :: rest) := by
            rw [show printVal nl cg d (.arr []) = ['[', ']'] from rfl, skipWs_append hw]
            simp only [List.cons_append, List.nil_append]
            exact skipWs_not_ws (by decide) _
          rw [parseVal_succ, parseValBody_cons fuel hskip]
          rw [parseValCase.eq_def, if_neg (by decide), if_neg (by decide), if_neg (by decide),
            if_neg (by decide), if_pos rfl, skipWs_not_ws (by decide)]
          rfl
        | cons x xs =>
          have hsz1 : szJ x ≤ fuel := by
            have h1 := szItems_pos xs
            have : szJ (.arr (x :: xs)) = 1 + szJ x + szItems xs := rfl
            omega
          have hsz2 : szItems xs ≤ fuel := by
            have h1 := szJ_pos x
            have : szJ (.arr (x :: xs)) = 1 + szJ x + szItems xs := rfl
            omega
          obtain ⟨c0, cs0, hx, hxw, hxb⟩ := printVal_head nl cg (d + 1) x
          have harg : w ++ (printVal nl cg d (.arr (x :: xs)) ++ rest)
              = w ++ '[' :: (nl (d + 1) ++ (printVal nl cg (d + 1) x
                  ++ (printItems nl cg (d + 1) xs ++ (nl d ++ (']' :: rest))))) := by
            rw [show printVal nl cg d (.arr (x :: xs))
              = '[' :: (nl (d + 1) ++ printVal nl cg (d + 1) x
                ++ printItems nl cg (d + 1) xs ++ nl d ++ [']']) from rfl]
            simp only [List.cons_append, List.append_assoc, List.nil_append]
          rw [harg]
          have hskip : skipWs (w ++ '[' :: (nl (d + 1) ++ (printVal nl cg (d + 1) x
              ++ (printItems nl cg (d + 1) xs ++ (nl d ++ (']' :: rest))))))
              = '[' :: (nl (d + 1) ++ (printVal nl cg (d + 1) x
                ++ (printItems nl cg (d + 1) xs ++ (nl d ++ (']' :: rest))))) := by
            rw [skipWs_append hw]
            exact skipWs_not_ws (by decide) _
          rw [parseVal_succ, parseValBody_cons fuel hskip]
          rw [parseValCase.eq_def, if_neg (by decide), if_neg (by decide), if_neg (by decide),
            if_neg (by decide), if_pos rfl]
          have hskip2 : skipWs (nl (d + 1) ++ (printVal nl cg (d + 1) x
              ++ (printItems nl cg (d + 1) xs ++ (nl d ++ (']' :: rest)))))
              = c0 :: (cs0 ++ (printItems nl cg (d + 1) xs ++ (nl d ++ (']' :: rest)))) := by
            rw [skipWs_append (hnl (d + 1)), hx, List.cons_append]
            exact skipWs_not_ws hxw _
          rw [hskip2]
          split
          · rename_i r heq
            injection heq with he1 he2
            exact absurd he1 hxb
          · have hA := IHA (d + 1) x (nl (d + 1))
              (printItems nl cg (d + 1) xs ++ (nl d ++ (']' :: rest))) (hnl (d + 1))
              (sepHead_printItems nl cg (d + 1) xs (hnl d) ']' ⟨by decide, by decide⟩ rest)
              hsz1
            rw [hA, optBindM_some]
            have hB := IHB (d + 1) xs [x] (nl d) rest (hnl d) hrest hsz2
            rw [hB]
            simp
      | obj kvs =>
        cases kvs with
        | nil =>
          have hskip : skipWs (w ++ (printVal nl cg d (.obj []) ++ rest))
              = '{' :: ('}' :: rest) := by
            rw [show printVal nl cg d (.obj []) = ['{', '}'] from rfl, skipWs_append hw]
            simp only [List.cons_append, List.nil_append]
            exact skipWs_not_ws (by decide) _
          rw [parseVal_succ, parseValBody_cons fuel hskip]
          rw [parseValCase.eq_def, if_neg (by decide), if_neg (by decide), if_neg (by decide),
            if_neg (by decide), if_neg (by decide), if_pos rfl, skipWs_not_ws (by decide)]
          rfl
        | cons kv kvs =>
          obtain ⟨k, v⟩ := kv
          have hsz1 : 1 + szJ v ≤ fuel := by
            have h1 := szFields_pos kvs
            have : szJ (.obj ((k, v) :: kvs)) = 2 + szJ v + szFields kvs := rfl
            omega
          have hsz2 : szFields kvs ≤ fuel := by
            have h1 := szJ_pos v
            have : szJ (.obj ((k, v) :: kvs)) = 2 + szJ v + szFields kvs := rfl
            omega
          have harg : w ++ (printVal nl cg d (.obj ((k, v) :: kvs)) ++ rest)
              = w ++ '{' :: (nl (d + 1) ++ (printField nl cg (d + 1) (k, v)
                  ++ (printFields nl cg (d + 1) kvs ++ (nl d ++ ('}' :: rest))))) := by
            rw [show printVal nl cg d (.obj ((k, v) :: kvs))
              = '{' :: (nl (d + 1) ++ printField nl cg (d + 1) (k, v)
                ++ printFields nl cg (d + 1) kvs ++ nl d ++ ['}']) from rfl]
            simp only [List.cons_append, List.append_assoc, List.nil_append]
          rw [harg]
          have hskip : skipWs (w ++ '{' :: (nl (d + 1) ++ (printField nl cg (d + 1) (k, v)
              ++ (printFields nl cg (d + 1) kvs ++ (nl d ++ ('}' :: rest))))))
              = '{' :: (nl (d + 1) ++ (printField nl cg (d + 1) (k, v)
                ++ (printFields nl cg (d + 1) kvs ++ (nl d ++ ('}' :: rest))))) := by
            rw [skipWs_append hw]
            exact skipWs_not_ws (by decide) _
          rw [parseVal_succ, parseValBody_cons fuel hskip]
          rw [parseValCase.eq_def, if_neg (by decide), if_neg (by decide), if_neg (by decide),
            if_neg (by decide), if_neg (by decide), if_pos rfl]
          have hskip2 : skipWs (nl (d + 1) ++ (printField nl cg (d + 1) (k, v)
              ++ (printFields nl cg (d + 1) kvs ++ (nl d ++ ('}' :: rest)))))
              = '"' :: ((escapeString k.data ++ '"' :: ':' :: (cg ++ printVal nl cg (d + 1) v))
                  ++ (printFields nl cg (d + 1) kvs ++ (nl d ++ ('}' :: rest)))) := by
            rw [skipWs_append (hnl (d + 1)),
              show printField nl cg (d + 1) (k, v)
                = '"' :: (escapeString k.data ++ '"' :: ':' :: (cg ++ printVal nl cg (d + 1) v))
                from rfl, List.cons_append]
            exact skipWs_not_ws (by decide) _
          rw [hskip2]
          split
          · rename_i r heq
            injection heq with he1 he2
            exact absurd he1 (by decide)
          · have hC := IHC (d + 1) k v (nl (d + 1))
              (printFields nl cg (d + 1) kvs ++ (nl d ++ ('}' :: rest))) (hnl (d + 1))
              (sepHead_printFields nl cg (d + 1) kvs (hnl d) '}' ⟨by decide, by decide⟩ rest)
              hsz1
            have harg2 : nl (d + 1) ++ (printField nl cg (d + 1) (k, v)
                ++ (printFields nl cg (d + 1) kvs ++ (nl d ++ ('}' :: rest))))
                = nl (d + 1) ++ (printField nl cg (d + 1) (k, v)
                  ++ (printFields nl cg (d + 1) kvs ++ (nl d ++ ('}' :: rest)))) := rfl
            rw [hC, optBindM_some]
            have hD := IHD (d + 1) kvs [(k, v)] (nl d) rest (hnl d) hrest hsz2
            rw [hD]
            simp
    · -- parseArrRest
      intro d xs acc u rest hu hrest hsz
      cases xs with
      | nil =>
        have hskip : skipWs (printItems nl cg d [] ++ (u ++ ']' :: rest))
            = ']' :: rest := by
          rw [show printItems nl cg d [] = [] from rfl, List.nil_append,
            skipWs_append hu]
          exact skipWs_not_ws (by decide) _
        rw [parseArrRest_succ, parseArrRestBody_close fuel acc hskip]
        simp
      | cons y ys =>
        have hsz1 : szJ y ≤ fuel := by
          have h1 := szItems_pos ys
          have : szItems (y :: ys) = 1 + szJ y + szItems ys := rfl
          omega
        have hsz2 : szItems ys ≤ fuel := by
          have h1 := szJ_pos y
          have : szItems (y :: ys) = 1 + szJ y + szItems ys := rfl
          omega
        have harg : printItems nl cg d (y :: ys) ++ (u ++ ']' :: rest)
            = ',' :: (nl d ++ (printVal nl cg d y
                ++ (printItems nl cg d ys ++ (u ++ ']' :: rest)))) := by
          rw [show printItems nl cg d (y :: ys)
            = ',' :: (nl d ++ printVal nl cg d y ++ printItems nl cg d ys) from rfl]
          simp only [List.cons_append, List.append_assoc]
        rw [harg]
        have hskip : skipWs (',' :: (nl d ++ (printVal nl cg d y
            ++ (printItems nl cg d ys ++ (u ++ ']' :: rest)))))
            = ',' :: (nl d ++ (printVal nl cg d y
              ++ (printItems nl cg d ys ++ (u ++ ']' :: rest)))) :=
          skipWs_not_ws (by decide) _
        rw [parseArrRest_succ, parseArrRestBody_comma fuel acc hskip]
        have hA := IHA d y (nl d) (printItems nl cg d ys ++ (u ++ ']' :: rest)) (hnl d)
          (sepHead_printItems nl cg d ys hu ']' ⟨by decide, by decide⟩ rest) hsz1
        rw [hA, optBind_some]
        have hB := IHB d ys (y :: acc) u rest hu hrest hsz2
        rw [hB]
        simp
    · -- parseField
      intro d k v w rest hw hrest hsz
      have hszv : szJ v ≤ fuel := by omega
      have harg : w ++ (printField nl cg d (k, v) ++ rest)
          = w ++ '"' :: (escapeString k.data
              ++ '"' :: (':' :: (cg ++ (printVal nl cg d v ++ rest)))) := by
        rw [show printField nl cg d (k, v)
          = '"' :: (escapeString k.data ++ '"' :: ':' :: (cg ++ printVal nl cg d v))
          from rfl]
        simp only [List.cons_append, List.append_assoc]
      rw [harg]
      have hskip : skipWs (w ++ '"' :: (escapeString k.data
          ++ '"' :: (':' :: (cg ++ (printVal nl cg d v ++ rest)))))
          = '"' :: (escapeString k.data
            ++ '"' :: (':' :: (cg ++ (printVal nl cg d v ++ rest)))) := by
        rw [skipWs_append hw]
        exact skipWs_not_ws (by decide) _
      rw [parseField_succ, parseFieldBody_quote fuel hskip]
      rw [parseStrBody_escape k.data (':' :: (cg ++ (printVal nl cg d v ++ rest))),
        optBind_some]
      rw [show skipWs (':' :: (cg ++ (printVal nl cg d v ++ rest)))
        = ':' :: (cg ++ (printVal nl cg d v ++ rest)) from skipWs_not_ws (by decide) _]
      have hA := IHA d v cg rest hcg hrest hszv
      show (parseVal fuel (cg ++ (printVal nl cg d v ++ rest))).bind
          (fun q => some ((String.mk k.data, q.1), q.2)) = some ((k, v), rest)
      rw [hA, optBind_some]
    · -- parseObjRest
      intro d kvs acc u rest hu hrest hsz
      cases kvs with
      | nil =>
        have hskip : skipWs (printFields nl cg d [] ++ (u ++ '}' :: rest))
            = '}' :: rest := by
          rw [show printFields nl cg d [] = [] from rfl, List.nil_append,
            skipWs_append hu]
          exact skipWs_not_ws (by decide) _
        rw [parseObjRest_succ, parseObjRestBody_close fuel acc hskip]
        simp
      | cons kv kvs =>
        obtain ⟨k, v⟩ := kv
        have hsz1 : 1 + szJ v ≤ fuel := by
          have h1 := szFields_pos kvs
          have : szFields ((k, v) :: kvs) = 2 + szJ v + szFields kvs := rfl
          omega
        have hsz2 : szFields kvs ≤ fuel := by
          have h1 := szJ_pos v
          have : szFields ((k, v) :: kvs) = 2 + szJ v + szFields kvs := rfl
          omega
        have harg : printFields nl cg d ((k, v) :: kvs) ++ (u ++ '}' :: rest)
            = ',' :: (nl d ++ (printField nl cg d (k, v)
                ++ (printFields nl cg d kvs ++ (u ++ '}' :: rest)))) := by
          rw [show printFields nl cg d ((k, v) :: kvs)
            = ',' :: (nl d ++ printField nl cg d (k, v) ++ printFields nl cg d kvs)
            from rfl]
          simp only [List.cons_append, List.append_assoc]
        rw [harg]
        have hskip : skipWs (',' :: (nl d ++ (printField nl cg d (k, v)
            ++ (printFields nl cg d kvs ++ (u ++ '}' :: rest)))))
            = ',' :: (nl d ++ (printField nl cg d (k, v)
              ++ (printFields nl cg d kvs ++ (u ++ '}' :: rest)))) :=
          skipWs_not_ws (by decide) _
        rw [parseObjRest_succ, parseObjRestBody_comma fuel acc hskip]
        have hC := IHC d k v (nl d) (printFields nl cg d kvs ++ (u ++ '}' :: rest)) (hnl d)
          (sepHead_printFields nl cg d kvs hu '}' ⟨by decide, by decide⟩ rest) hsz1
        rw [hC, optBind_some]
        have hD := IHD d kvs ((k, v) :: acc) u rest hu hrest hsz2
        rw [hD]
        simp

/-! ### Enough fuel: the printed length bounds the size -/

mutual

theorem szJ_le_len (nl : Nat → List Char) (cg : List Char) (d : Nat) :
    ∀ j : Json, szJ j ≤ (printVal nl cg d j).length
  | .null => by
    rw [show printVal nl cg d .null = ['n', 'u', 'l', 'l'] from rfl,
      show szJ .null = 1 from rfl]
    simp
  | .bool true => by
    rw [show printVal nl cg d (.bool true) = ['t', 'r', 'u', 'e'] from rfl,
      show szJ (.bool true) = 1 from rfl]
    simp
  | .bool false => by
    rw [show printVal nl cg d (.bool false) = ['f', 'a', 'l', 's', 'e'] from rfl,
      show szJ (.bool false) = 1 from rfl]
    simp
  | .num v => by
    rw [show printVal nl cg d (.num v) = printDecNum v from rfl,
      show szJ (.num v) = 1 from rfl]
    obtain ⟨c, cs, hv, _⟩ := printDecNum_head v
    rw [hv]
    simp
  | .str s => by
    rw [show printVal nl cg d (.str s) = '"' :: (escapeString s.data ++ ['"']) from rfl,
      show szJ (.str s) = 1 from rfl]
    simp
  | .arr [] => by
    rw [show printVal nl cg d (.arr []) = ['[', ']'] from rfl,
      show szJ (.arr []) = szItems [] from rfl, show szItems ([] : List Json) = 1 from rfl]
    simp
  | .arr (x :: xs) => by
    have h1 := szJ_le_len nl cg (d + 1) x
    have h2 := szItems_le_len nl cg (d + 1) xs
    rw [show printVal nl cg d (.arr (x :: xs))
      = '[' :: (nl (d + 1) ++ printVal nl cg (d + 1) x ++ printItems nl cg (d + 1) xs
        ++ nl d ++ [']']) from rfl,
      show szJ (.arr (x :: xs)) = 1 + szJ x + szItems xs from rfl]
    simp only [List.length_cons, List.length_append]
    omega
  | .obj [] => by
    rw [show printVal nl cg d (.obj []) = ['{', '}'] from rfl,
      show szJ (.obj []) = szFields [] from rfl,
      show szFields ([] : List (String × Json)) = 1 from rfl]
    simp
  | .obj (kv :: kvs) => by
    obtain ⟨k, v⟩ := kv
    have h1 := szJ_le_len nl cg (d + 1) v
    have h2 := szFields_le_len nl cg (d + 1) kvs
    rw [show printVal nl cg d (.obj ((k, v) :: kvs))
      = '{' :: (nl (d + 1) ++ printField nl cg (d + 1) (k, v)
        ++ printFields nl cg (d + 1) kvs ++ nl d ++ ['}']) from rfl,
      show szJ (.obj ((k, v) :: kvs)) = 2 + szJ v + szFields kvs from rfl,
      show printField nl cg (d + 1) (k, v)
        = '"' :: (escapeString k.data ++ '"' :: ':' :: (cg ++ printVal nl cg (d + 1) v))
        from rfl]
    simp only [List.length_cons, List.length_append]
    omega

theorem szItems_le_len (nl : Nat → List Char) (cg : List Char) (d : Nat) :
    ∀ xs : List Json, szItems xs ≤ (printItems nl cg d xs).length + 1
  | [] => by
    rw [show printItems nl cg d [] = [] from rfl,
      show szItems ([] : List Json) = 1 from rfl]
    simp
  | y :: ys => by
    have h1 := szJ_le_len nl cg d y
    have h2 := szItems_le_len nl cg d ys
    rw [show printItems nl cg d (y :: ys)
      = ',' :: (nl d ++ printVal nl cg d y ++ printItems nl cg d ys) from rfl,
      show szItems (y :: ys) = 1 + szJ y + szItems ys from rfl]
    simp only [List.length_cons, List.length_append]
    omega

theorem szFields_le_len (nl : Nat → List Char) (cg : List Char) (d : Nat) :
    ∀ kvs : List (String × Json), szFields kvs ≤ (printFields nl cg d kvs).length + 1
  | [] => by
    rw [show printFields nl cg d [] = [] from rfl,
      show szFields ([] : List (String × Json)) = 1 from rfl]
    simp
  | kv :: kvs => by
    obtain ⟨k, v⟩ := kv
    have h1 := szJ_le_len nl cg d v
    have h2 := szFields_le_len nl cg d kvs
    rw [show printFields nl cg d ((k, v) :: kvs)
      = ',' :: (nl d ++ printField nl cg d (k, v) ++ printFields nl cg d kvs) from rfl,
      show szFields ((k, v) :: kvs) = 2 + szJ v + szFields kvs from rfl,
      show printField nl cg d (k, v)
        = '"' :: (escapeString k.data ++ '"' :: ':' :: (cg ++ printVal nl cg d v))
        from rfl]
    simp only [List.length_cons, List.length_append]
    omega

end

/-- Top-level round trip: parsing any printed JSON value recovers it. -/
theorem parseJson_print (nl : Nat → List Char) (cg : List Char)
    (hnl : ∀ d, WsOnly (nl d)) (hcg : WsOnly cg) (j : Json) :
    parseJson (String.mk (printVal nl cg 0 j)) = some j := by
  unfold parseJson
  rw [show (String.mk (printVal nl cg 0 j)).data = printVal nl cg 0 j from rfl]
  have hfuel : szJ j ≤ (printVal nl cg 0 j).length + 1 := by
    have := szJ_le_len nl cg 0 j
    omega
  have h := (parse_print nl cg hnl hcg ((printVal nl cg 0 j).length + 1)).1
    0 j [] [] wsOnly_nil trivial hfuel
  rw [List.nil_append, List.append_nil] at h
  rw [h]
  rfl

theorem wsOnly_pretty (d : Nat) : WsOnly ('\n' :: List.replicate (2 * d) ' ') := by
  intro c hc
  rcases List.mem_cons.mp hc with rfl | hc
  · decide
  · rw [List.eq_of_mem_replicate hc]; decide

theorem wsOnly_space : WsOnly [' '] := by
  intro c hc
  rcases List.mem_cons.mp hc with rfl | hc
  · decide
  · cases hc

/-- `JSON.parse` inverts `JSON.stringify(x, null, 2)`. -/
theorem parseJson_stringifyPretty2 (j : Json) :
    parseJson (stringifyPretty2 j) = some j :=
  parseJson_print _ _ wsOnly_pretty wsOnly_space j

/-- `JSON.parse` inverts `JSON.stringify(x)`. -/
theorem parseJson_stringifyCompact (j : Json) :
    parseJson (stringifyCompact j) = some j :=
  parseJson_print _ _ (fun _ => wsOnly_nil) wsOnly_nil j

/-! ### The candidate data model (§3 of the spec)

A cache entry is `{ id: doc.id, ...doc.data() }` with the fields the
application writes: `nome`, `pontuacao`, `tipo`, `region`,
`timestamp`. -/

structure Candidate where
  id : String
  nome : String
  pontuacao : DecNum
  tipo : String
  region : String
  timestamp : String
deriving DecidableEq, Repr

/-- JSON object for one cache entry, as serialised by
`JSON.stringify`. -/
def candidateToJson (c : Candidate) : Json :=
  .obj [("id", .str c.id), ("nome", .str c.nome), ("pontuacao", .num c.pontuacao),
    ("tipo", .str c.tipo), ("region", .str c.region), ("timestamp", .str c.timestamp)]

def cacheToJson (cache : List Candidate) : Json :=
  .arr (cache.map candidateToJson)

/-- Property lookup on a parsed JSON value (later duplicate keys win,
as in `JSON.parse`); `none` models `undefined`. -/
def getFieldAux : List (String × Json) → String → Option Json
  | [], _ => none
  | (k2, v) :: kvs, k =>
    match getFieldAux kvs k with
    | some r => some r
    | none => if k2 = k then some v else none

def Json.getField : Json → String → Option Json
  | .obj kvs, k => getFieldAux kvs k
  | _, _ => none

def asStr : Option Json → Option String
  | some (.str s) => some s
  | _ => none

def asNum : Option Json → Option DecNum
  | some (.num v) => some v
  | _ => none

/-- Structural reading of one serialised candidate back into a record. -/
def decodeCandidate (j : Json) : Option Candidate := do
  let id ← asStr (j.getField "id")
  let nome ← asStr (j.getField "nome")
  let pontuacao ← asNum (j.getField "pontuacao")
  let tipo ← asStr (j.getField "tipo")
  let region ← asStr (j.getField "region")
  let timestamp ← asStr (j.getField "timestamp")
  pure ⟨id, nome, pontuacao, tipo, region, timestamp⟩

def decodeList : List Json → Option (List Candidate)
  | [] => some []
  | j :: js => do
    let c ← decodeCandidate j
    let cs ← decodeList js
    pure (c :: cs)

def decodeCandidates : Json → Option (List Candidate)
  | .arr xs => decodeList xs
  | _ => none

/-! ### Read operations over the local cache -/

/-- `exportJSON()`: `JSON.stringify(this.allCandidates, null, 2)`. -/
def exportJSON (cache : List Candidate) : String :=
  stringifyPretty2 (cacheToJson cache)

/-- `getAllData()`: `JSON.parse(JSON.stringify(this.allCandidates))` —
a deep copy produced by serialising the cache and parsing it back.  In
this model the copy is read back structurally; the round trip through
the serialised string is exactly what makes the JS result independent
of the cache. -/
def getAllData (cache : List Candidate) : List Candidate :=
  ((parseJson (stringifyCompact (cacheToJson cache))).bind decodeCandidates).getD []

/-- The comparator `(a, b) => b.pontuacao - a.pontuacao` keeps `a`
before `b` exactly when the comparator is `≤ 0`, i.e. when
`b.pontuacao ≤ a.pontuacao`. -/
def scoreLe (a b : Candidate) : Bool :=
  decide (b.pontuacao.toRat ≤ a.pontuacao.toRat)

structure RegionData where
  ampla : List Candidate
  pcd : List Candidate
  ppp : List Candidate
deriving DecidableEq, Repr

/-- `getRegionData(region)`: filter the cache by region, then for each
of the three fixed categories filter by `tipo` and sort by descending
score (JS `Array.prototype.sort` is stable; `List.mergeSort` models
it). -/
def getRegionData (cache : List Candidate) (region : String) : RegionData :=
  let candidatesForRegion := cache.filter (fun c => c.region == region)
  { ampla := (candidatesForRegion.filter (fun c => c.tipo == "ampla")).mergeSort scoreLe
    pcd := (candidatesForRegion.filter (fun c => c.tipo == "pcd")).mergeSort scoreLe
    ppp := (candidatesForRegion.filter (fun c => c.tipo == "ppp")).mergeSort scoreLe }

/-- The three-way category label used by `exportCSV`; note the source
maps every `tipo` other than `ampla` and `pcd` to `PPP`. -/
def tipoLabel (t : String) : String :=
  if t = "ampla" then "Ampla Concorrência" else if t = "pcd" then "PCD" else "PPP"

/-- One CSV line: only the name is quoted, no other escaping. -/
def csvRow (c : Candidate) : String :=
  c.region ++ "," ++ "\"" ++ c.nome ++ "\"" ++ "," ++ String.mk (printDecNum c.pontuacao)
    ++ "," ++ tipoLabel c.tipo ++ "," ++ c.timestamp ++ "\n"

/-- `exportCSV()`: header then `forEach` appending one line per cached
candidate. -/
def exportCSV (cache : List Candidate) : String :=
  cache.foldl (fun csv c => csv ++ csvRow c) "Região,Nome,Pontuação,Tipo,Data/Hora\n"

/-! ### Model of `parseFloat`

`parseFloat` first coerces its argument to a string, then reads the
longest numeric prefix (optional sign, decimal digits, optional
fraction); `none` models `NaN`.  Exponent notation is outside this
model — the printer never emits it and the module never produces it. -/

def parseFloatBody : List Char → Option DecNum
  | [] => none
  | c :: cs =>
    if c.isDigit then
      match takeDigits (digitVal c) cs with
      | (n, '.' :: rest2) =>
        match takeFracDigits n 0 rest2 with
        | (n2, e, _) => some ⟨(n2 : Int), e⟩
      | (n, _) => some ⟨(n : Int), 0⟩
    else if c = '.' then
      match cs with
      | c2 :: cs2 =>
        if c2.isDigit then
          match takeFracDigits 0 0 (c2 :: cs2) with
          | (n2, e, _) => some ⟨(n2 : Int), e⟩
        else none
      | [] => none
    else none

def parseFloatChars (cs : List Char) : Option DecNum :=
  match skipWs cs with
  | '-' :: cs2 => (parseFloatBody cs2).map (fun d => ⟨-d.m, d.e⟩)
  | '+' :: cs2 => parseFloatBody cs2
  | cs2 => parseFloatBody cs2

/-- `parseFloat` applied to a parsed JSON value, following the JS
string coercion: numbers reparse to themselves, strings are read as
above, and `null` / booleans / objects coerce to non-numeric text
(`NaN`).  An array coerces to its elements joined by commas, so the
numeric prefix is that of its first element (empty array gives the
empty string, hence `NaN`). -/
def jsParseFloat : Json → Option DecNum
  | .num v => some v
  | .str s => parseFloatChars s.data
  | .arr (x :: _) => jsParseFloat x
  | .arr [] => none
  | _ => none

/-! ### Truthiness and the write-side facade model -/

/-- JS truthiness of a parsed JSON value. -/
def truthy : Json → Bool
  | .null => false
  | .bool b => b
  | .num v => !(v.m == 0)
  | .str s => !(s == "")
  | .arr _ => true
  | .obj _ => true

/-- Property access where `undefined` is collapsed to `null`.  On the
records restored here this is semantically transparent: `null` and
`undefined` are equally falsy, and `parseFloat` maps both to `NaN`. -/
def jsGet (j : Json) (k : String) : Json :=
  (j.getField k).getD .null

/-- `a || b` on an optionally-present field. -/
def jsOr (v : Option Json) (dflt : Json) : Json :=
  match v with
  | some x => if truthy x then x else dflt
  | none => dflt

/-- The required-fields validation of `restoreData`:
`candidate.nome && candidate.pontuacao !== undefined && candidate.tipo
&& candidate.region`. -/
def isValidCandidate (j : Json) : Bool :=
  (match j.getField "nome" with | some v => truthy v | none => false)
    && (j.getField "pontuacao").isSome
    && (match j.getField "tipo" with | some v => truthy v | none => false)
    && (match j.getField "region" with | some v => truthy v | none => false)

/-- A document as written by `restoreData` (`nome`, coerced
`pontuacao`, `tipo`, `region`, and the kept-or-fresh `timestamp`). -/
structure RestoredDoc where
  nome : Json
  pontuacao : Option DecNum
  tipo : Json
  region : Json
  timestamp : Json
deriving Repr

/-- The document built for one accepted record: the score is coerced
with `parseFloat`, the timestamp is `candidate.timestamp || now`. -/
def restoredOf (now : String) (j : Json) : RestoredDoc :=
  { nome := jsGet j "nome"
    pontuacao := jsParseFloat (jsGet j "pontuacao")
    tipo := jsGet j "tipo"
    region := jsGet j "region"
    timestamp := jsOr (j.getField "timestamp") (.str now) }

/-- The `for`-loop of `restoreData`: valid records are queued for
`addDoc` in order, invalid ones are skipped (logged). -/
def restoreAdds (now : String) : List Json → List RestoredDoc
  | [] => []
  | c :: cs =>
    if isValidCandidate c then restoredOf now c :: restoreAdds now cs
    else restoreAdds now cs

/-- A document in the remote collection for the current identity. -/
structure RemoteDoc where
  id : String
  fields : List (String × Json)

/-- The facade state the write operations read: the readiness flag and
the remote collection (the local cache is carried separately, since
only the subscription callback ever writes it). -/
structure FacadeState where
  isAuthReady : Bool
  remote : List RemoteDoc

/-- Replace a field of a spread object (`{...candidate, k: v}`):
an existing key keeps its position with the new value, a missing one is
appended. -/
def setField (fields : List (String × Json)) (k : String) (v : Json) :
    List (String × Json) :=
  if fields.any (fun kv => kv.1 == k) then
    fields.map (fun kv => if kv.1 == k then (k, v) else kv)
  else fields ++ [(k, v)]

/-- `addCandidate(region, candidate)`: when not ready, fail without
touching the network (`none` = no document sent); otherwise send
`{...candidate, region, timestamp: now}` and report success. -/
def addCandidate (s : FacadeState) (now : String) (region : String)
    (candidate : List (String × Json)) : Option (List (String × Json)) × Bool :=
  if s.isAuthReady = false then (none, false)
  else
    (some (setField (setField candidate "region" (.str region)) "timestamp" (.str now)),
      true)

/-- `clearAll()`: when not ready, fail without touching the network;
otherwise enumerate the remote collection and issue one delete per
document (the returned list is the trace of issued deletes). -/
def clearAll (s : FacadeState) : List String × Bool :=
  if s.isAuthReady = false then ([], false)
  else (s.remote.map RemoteDoc.id, true)

/-- Result of `restoreData`: whether `clearAll` ran, the deletes it
issued, the documents queued for `addDoc`, and the returned flag. -/
structure RestoreResult where
  cleared : Bool
  deletes : List String
  adds : List RestoredDoc
  ok : Bool

/-- `restoreData(jsonData)`: not-ready guard; `JSON.parse` (a thrown
exception is caught and reported as failure); top-level array check;
then `clearAll` followed by one `addDoc` per valid record. -/
def restoreData (s : FacadeState) (now : String) (jsonData : String) : RestoreResult :=
  if s.isAuthReady = false then ⟨false, [], [], false⟩
  else
    match parseJson jsonData with
    | some (.arr items) =>
      ⟨true, s.remote.map RemoteDoc.id, restoreAdds now items, true⟩
    | _ => ⟨false, [], [], false⟩

/-- Whether a restore payload parses as a JSON array. -/
def parsesAsArray (payload : String) : Bool :=
  match parseJson payload with
  | some (.arr _) => true
  | _ => false

/-! ### Helper lemmas for the claims -/

theorem scoreLe_trans : ∀ a b c : Candidate, scoreLe a b → scoreLe b c → scoreLe a c := by
  intro a b c hab hbc
  simp only [scoreLe, decide_eq_true_eq] at *
  exact le_trans hbc hab

theorem scoreLe_total : ∀ a b : Candidate, scoreLe a b || scoreLe b a := by
  intro a b
  simp only [scoreLe, Bool.or_eq_true, decide_eq_true_eq]
  exact le_total _ _

theorem decodeCandidate_toJson (c : Candidate) :
    decodeCandidate (candidateToJson c) = some c := rfl

theorem decodeList_map (cache : List Candidate) :
    decodeList (cache.map candidateToJson) = some cache := by
  induction cache with
  | nil => rfl
  | cons c cs ih =>
    rw [List.map_cons]
    show (decodeCandidate (candidateToJson c)).bind
      (fun x => (decodeList (cs.map candidateToJson)).bind (fun xs => some (x :: xs)))
      = some (c :: cs)
    rw [decodeCandidate_toJson, optBind_some, ih, optBind_some]

theorem decodeCandidates_cacheToJson (cache : List Candidate) :
    decodeCandidates (cacheToJson cache) = some cache := by
  show decodeList (cache.map candidateToJson) = some cache
  exact decodeList_map cache

theorem string_foldl_append (l : List String) :
    ∀ init : String, l.foldl (· ++ ·) init = init ++ l.foldl (· ++ ·) "" := by
  induction l with
  | nil => intro init; simp
  | cons s l ih =>
    intro init
    rw [List.foldl_cons, List.foldl_cons, ih (init ++ s), ih ("" ++ s),
      String.append_assoc]
    simp

theorem string_join_cons (s : String) (l : List String) :
    String.join (s :: l) = s ++ String.join l := by
  show List.foldl (· ++ ·) ("" ++ s) l = s ++ List.foldl (· ++ ·) "" l
  rw [string_foldl_append l ("" ++ s)]
  simp

theorem csv_foldl (l : List Candidate) :
    ∀ init : String, l.foldl (fun csv c => csv ++ csvRow c) init
      = init ++ String.join (l.map csvRow) := by
  induction l with
  | nil => intro init; simp [String.join]
  | cons c cs ih =>
    intro init
    rw [List.foldl_cons, ih (init ++ csvRow c), List.map_cons, string_join_cons,
      String.append_assoc]

/-! ### The claims -/

/-- C1.  For every local cache and region `r`, `getRegionData(r)`
returns only candidates whose region equals `r`, partitioned into
exactly the three fixed categories (each returned list is a permutation
of the cache entries with that region and category), and each list is
sorted non-ascending by score. -/
theorem getRegionData_spec (cache : List Candidate) (r : String) :
    ((getRegionData cache r).ampla.Perm
        (cache.filter (fun c => c.region == r && c.tipo == "ampla"))
      ∧ (getRegionData cache r).ampla.Pairwise
          (fun a b => b.pontuacao.toRat ≤ a.pontuacao.toRat))
    ∧ ((getRegionData cache r).pcd.Perm
        (cache.filter (fun c => c.region == r && c.tipo == "pcd"))
      ∧ (getRegionData cache r).pcd.Pairwise
          (fun a b => b.pontuacao.toRat ≤ a.pontuacao.toRat))
    ∧ ((getRegionData cache r).ppp.Perm
        (cache.filter (fun c => c.region == r && c.tipo == "ppp"))
      ∧ (getRegionData cache r).ppp.Pairwise
          (fun a b => b.pontuacao.toRat ≤ a.pontuacao.toRat))
    ∧ (∀ c : Candidate,
        c ∈ (getRegionData cache r).ampla ∨ c ∈ (getRegionData cache r).pcd
          ∨ c ∈ (getRegionData cache r).ppp → c.region = r) := by
  have hperm : ∀ t : String,
      ((cache.filter (fun c => c.region == r)).filter (fun c => c.tipo == t)).mergeSort scoreLe
        |>.Perm (cache.filter (fun c => c.region == r && c.tipo == t)) := by
    intro t
    refine (List.mergeSort_perm _ _).trans (List.Perm.of_eq ?_)
    rw [List.filter_filter]
    exact List.filter_congr (fun c _ => Bool.and_comm ..)
  have hsorted : ∀ l : List Candidate,
      (l.mergeSort scoreLe).Pairwise (fun a b => b.pontuacao.toRat ≤ a.pontuacao.toRat) := by
    intro l
    exact (List.sorted_mergeSort scoreLe_trans scoreLe_total l).imp
      (fun h => by simpa [scoreLe] using h)
  have hmem : ∀ t : String, ∀ c : Candidate,
      c ∈ ((cache.filter (fun c => c.region == r)).filter
        (fun c => c.tipo == t)).mergeSort scoreLe → c.region = r := by
    intro t c hc
    rw [List.mem_mergeSort] at hc
    have h1 := List.of_mem_filter (List.mem_of_mem_filter hc)
    exact eq_of_beq h1
  exact ⟨⟨hperm "ampla", hsorted _⟩, ⟨hperm "pcd", hsorted _⟩, ⟨hperm "ppp", hsorted _⟩,
    fun c hc => by
      rcases hc with hc | hc | hc
      · exact hmem "ampla" c hc
      · exact hmem "pcd" c hc
      · exact hmem "ppp" c hc⟩

/-- C9.  A candidate whose region matches but whose category is none of
the three fixed values appears in none of the three lists returned by
`getRegionData`; the union of the three partitions can therefore be a
strict subset of the region-matching candidates. -/
theorem getRegionData_unknown_tipo (cache : List Candidate) (r : String) (c : Candidate)
    (hc : c ∈ cache) (hr : c.region = r)
    (ht : c.tipo ≠ "ampla" ∧ c.tipo ≠ "pcd" ∧ c.tipo ≠ "ppp") :
    c ∉ (getRegionData cache r).ampla ∧ c ∉ (getRegionData cache r).pcd
      ∧ c ∉ (getRegionData cache r).ppp := by
  have habs : ∀ t : String, c.tipo ≠ t →
      c ∉ ((cache.filter (fun c => c.region == r)).filter
        (fun c => c.tipo == t)).mergeSort scoreLe := by
    intro t hne hmem
    rw [List.mem_mergeSort] at hmem
    have h2 : (c.tipo == t) = true := (List.mem_filter.mp hmem).2
    exact hne (eq_of_beq h2)
  exact ⟨habs "ampla" ht.1, habs "pcd" ht.2.1, habs "ppp" ht.2.2⟩

theorem getRegionData_unknown_tipo_witness :
    ((⟨"1", "X", ⟨80, 0⟩, "outro", "n", "t"⟩ : Candidate)
        ∈ [(⟨"1", "X", ⟨80, 0⟩, "outro", "n", "t"⟩ : Candidate)]
      ∧ ("outro" : String) ≠ "ampla" ∧ ("outro" : String) ≠ "pcd"
      ∧ ("outro" : String) ≠ "ppp")
    ∧ ((⟨"1", "X", ⟨80, 0⟩, "outro", "n", "t"⟩ : Candidate)
        ∉ (getRegionData [⟨"1", "X", ⟨80, 0⟩, "outro", "n", "t"⟩] "n").ampla
      ∧ (⟨"1", "X", ⟨80, 0⟩, "outro", "n", "t"⟩ : Candidate)
        ∉ (getRegionData [⟨"1", "X", ⟨80, 0⟩, "outro", "n", "t"⟩] "n").pcd
      ∧ (⟨"1", "X", ⟨80, 0⟩, "outro", "n", "t"⟩ : Candidate)
        ∉ (getRegionData [⟨"1", "X", ⟨80, 0⟩, "outro", "n", "t"⟩] "n").ppp) :=
  ⟨⟨by decide, by decide, by decide, by decide⟩,
    getRegionData_unknown_tipo _ "n" _ (by decide) rfl ⟨by decide, by decide, by decide⟩⟩

/-- C4.  Parsing the string returned by `exportJSON()` — with the same
parser model `restoreData` uses — yields exactly the records of the
cache at export time. -/
theorem exportJSON_roundtrip (cache : List Candidate) :
    (parseJson (exportJSON cache)).bind decodeCandidates = some cache := by
  unfold exportJSON
  rw [parseJson_stringifyPretty2, optBind_some, decodeCandidates_cacheToJson]

/-- C5.  `getAllData()` — the deep copy via
`JSON.parse(JSON.stringify(cache))` — is structurally equal to the
cache; since it is rebuilt from the serialised text, it shares no
structure with the facade state. -/
theorem getAllData_copy (cache : List Candidate) : getAllData cache = cache := by
  unfold getAllData
  rw [parseJson_stringifyCompact, optBind_some, decodeCandidates_cacheToJson]
  rfl

/-- C8 counterexample: the header line of `exportCSV()` is not the
English `Region,Name,Score,Category,Timestamp` claimed by the spec —
already on the empty cache the output starts with the Portuguese
header. -/
theorem exportCSV_header_cex :
    (exportCSV []).data.take ("Region,Name,Score,Category,Timestamp".data.length)
      ≠ "Region,Name,Score,Category,Timestamp".data := by
  decide

/-- C8 (amended).  `exportCSV()` emits the fixed Portuguese header line
`Região,Nome,Pontuação,Tipo,Data/Hora` followed by one comma-separated
line per cached candidate — region, quoted name, score, category
display label, timestamp — with no escaping beyond quoting the name. -/
theorem exportCSV_spec (cache : List Candidate) :
    exportCSV cache = "Região,Nome,Pontuação,Tipo,Data/Hora\n"
      ++ String.join (cache.map (fun c =>
        c.region ++ "," ++ "\"" ++ c.nome ++ "\"" ++ ","
          ++ String.mk (printDecNum c.pontuacao) ++ "," ++ tipoLabel c.tipo ++ ","
          ++ c.timestamp ++ "\n")) := by
  unfold exportCSV
  rw [csv_foldl]
  rfl

/-- C6.  When readiness is not established, each write operation
returns failure immediately: no document is sent, no delete is issued,
no clear or add happens.  (No operation writes any facade field; the
only cache mutation in the module is the subscription callback.) -/
theorem notReady_guard (s : FacadeState) (now r jsonData : String)
    (cand : List (String × Json)) (h : s.isAuthReady = false) :
    addCandidate s now r cand = (none, false) ∧ clearAll s = ([], false)
      ∧ restoreData s now jsonData = ⟨false, [], [], false⟩ := by
  unfold addCandidate clearAll restoreData
  rw [h]
  simp

theorem notReady_guard_witness :
    ((⟨false, [⟨"d1", []⟩]⟩ : FacadeState).isAuthReady = false)
    ∧ (addCandidate ⟨false, [⟨"d1", []⟩]⟩ "T0" "norte" [("nome", .str "A")]
        = (none, false)
      ∧ clearAll ⟨false, [⟨"d1", []⟩]⟩ = ([], false)
      ∧ restoreData ⟨false, [⟨"d1", []⟩]⟩ "T0" "[]" = ⟨false, [], [], false⟩) :=
  ⟨rfl, notReady_guard ⟨false, [⟨"d1", []⟩]⟩ "T0" "norte" "[]" [("nome", .str "A")] rfl⟩

/-- C7.  On a ready facade whose remote collection is empty,
`clearAll()` issues no deletions and reports success. -/
theorem clearAll_empty (s : FacadeState) (hready : s.isAuthReady = true)
    (hempty : s.remote = []) : clearAll s = ([], true) := by
  unfold clearAll
  rw [hready, hempty]
  simp

theorem clearAll_empty_witness :
    ((⟨true, []⟩ : FacadeState).isAuthReady = true
      ∧ (⟨true, []⟩ : FacadeState).remote = [])
    ∧ clearAll ⟨true, []⟩ = ([], true) :=
  ⟨⟨rfl, rfl⟩, clearAll_empty ⟨true, []⟩ rfl rfl⟩

/-- C3.  On a ready facade, `restoreData` with a payload that does not
parse as an array reports failure and issues neither the clear nor any
add: the remote store is untouched. -/
theorem restore_nonArray (s : FacadeState) (now payload : String)
    (hready : s.isAuthReady = true) (hp : parsesAsArray payload = false) :
    restoreData s now payload = ⟨false, [], [], false⟩ := by
  unfold restoreData
  rw [hready]
  unfold parsesAsArray at hp
  cases hpj : parseJson payload with
  | none => simp
  | some j =>
    cases j with
    | arr xs => rw [hpj] at hp; simp at hp
    | null => simp
    | bool b => simp
    | num v => simp
    | str s2 => simp
    | obj kvs => simp

theorem restore_nonArray_witness :
    ((⟨true, [⟨"d1", []⟩]⟩ : FacadeState).isAuthReady = true
      ∧ parsesAsArray "\x7b\"a\":1\x7d" = false)
    ∧ restoreData ⟨true, [⟨"d1", []⟩]⟩ "T0" "\x7b\"a\":1\x7d"
        = ⟨false, [], [], false⟩ :=
  ⟨⟨rfl, rfl⟩, restore_nonArray ⟨true, [⟨"d1", []⟩]⟩ "T0" "\x7b\"a\":1\x7d" rfl rfl⟩

/-- C2 counterexample: a record whose `timestamp` field is present but
empty does not keep it — the written document gets the fresh generation
timestamp instead, because the source tests truthiness
(`candidate.timestamp || new Date().toISOString()`), not presence. -/
theorem restore_timestamp_cex :
    ((Json.obj [("nome", .str "B"), ("pontuacao", .num ⟨90, 0⟩), ("tipo", .str "ampla"),
        ("region", .str "norte"), ("timestamp", .str "")]).getField "timestamp"
      = some (.str ""))
    ∧ (restoreData ⟨true, []⟩ "2026-01-01T00:00:00.000Z"
        "[\x7b\"nome\":\"A\"\x7d,\x7b\"nome\":\"B\",\"pontuacao\":90,\"tipo\":\"ampla\",\"region\":\"norte\",\"timestamp\":\"\"\x7d]").adds.map
        RestoredDoc.timestamp = [.str "2026-01-01T00:00:00.000Z"]
    ∧ Json.str "2026-01-01T00:00:00.000Z" ≠ Json.str "" := by
  refine ⟨rfl, rfl, ?_⟩
  intro h
  injection h with h2
  exact absurd h2 (by decide)

/-- C2 (amended).  On a ready facade, `restoreData` on an array payload
with one invalid record (missing score) and one valid record first
clears the remote collection, then writes exactly the valid record, and
reports success; the written record keeps the input timestamp when it
is present and truthy (non-empty), and otherwise — absent or falsy —
gets the fresh generation timestamp. -/
theorem restore_mixed (s : FacadeState) (now payload : String) (r1 r2 : Json)
    (hready : s.isAuthReady = true)
    (hp : parseJson payload = some (.arr [r1, r2]))
    (h1 : r1.getField "pontuacao" = none)
    (h2 : isValidCandidate r2 = true) :
    restoreData s now payload
      = ⟨true, s.remote.map RemoteDoc.id, [restoredOf now r2], true⟩
    ∧ (restoredOf now r2).timestamp
      = (match r2.getField "timestamp" with
         | some t => if truthy t then t else Json.str now
         | none => Json.str now) := by
  constructor
  · have hv1 : isValidCandidate r1 = false := by
      unfold isValidCandidate
      rw [h1]
      simp
    unfold restoreData
    rw [hready]
    simp only [show (true = false) = False by simp, if_false, hp]
    show RestoreResult.mk true (s.remote.map RemoteDoc.id)
      (restoreAdds now [r1, r2]) true = _
    rw [show restoreAdds now [r1, r2]
      = if isValidCandidate r1 then restoredOf now r1 :: restoreAdds now [r2]
        else restoreAdds now [r2] from rfl, hv1]
    simp only [Bool.false_eq_true, if_false]
    rw [show restoreAdds now [r2]
      = if isValidCandidate r2 then restoredOf now r2 :: restoreAdds now []
        else restoreAdds now [] from rfl, h2]
    simp
    rfl
  · rfl

theorem restore_mixed_witness :
    ((⟨true, [⟨"d1", []⟩]⟩ : FacadeState).isAuthReady = true
      ∧ parseJson
          "[\x7b\"nome\":\"A\"\x7d,\x7b\"nome\":\"B\",\"pontuacao\":90,\"tipo\":\"ampla\",\"region\":\"norte\",\"timestamp\":\"2020-05-01T00:00:00.000Z\"\x7d]"
        = some (.arr [Json.obj [("nome", .str "A")],
            Json.obj [("nome", .str "B"), ("pontuacao", .num ⟨90, 0⟩),
              ("tipo", .str "ampla"), ("region", .str "norte"),
              ("timestamp", .str "2020-05-01T00:00:00.000Z")]])
      ∧ (Json.obj [("nome", .str "A")]).getField "pontuacao" = none
      ∧ isValidCandidate (Json.obj [("nome", .str "B"), ("pontuacao", .num ⟨90, 0⟩),
          ("tipo", .str "ampla"), ("region", .str "norte"),
          ("timestamp", .str "2020-05-01T00:00:00.000Z")]) = true)
    ∧ (restoreData ⟨true, [⟨"d1", []⟩]⟩ "T1"
          "[\x7b\"nome\":\"A\"\x7d,\x7b\"nome\":\"B\",\"pontuacao\":90,\"tipo\":\"ampla\",\"region\":\"norte\",\"timestamp\":\"2020-05-01T00:00:00.000Z\"\x7d]"
        = ⟨true, ["d1"],
            [restoredOf "T1" (Json.obj [("nome", .str "B"), ("pontuacao", .num ⟨90, 0⟩),
              ("tipo", .str "ampla"), ("region", .str "norte"),
              ("timestamp", .str "2020-05-01T00:00:00.000Z")])], true⟩
      ∧ (restoredOf "T1" (Json.obj [("nome", .str "B"), ("pontuacao", .num ⟨90, 0⟩),
          ("tipo", .str "ampla"), ("region", .str "norte"),
          ("timestamp", .str "2020-05-01T00:00:00.000Z")])).timestamp
        = (match (Json.obj [("nome", .str "B"), ("pontuacao", .num ⟨90, 0⟩),
            ("tipo", .str "ampla"), ("region", .str "norte"),
            ("timestamp", .str "2020-05-01T00:00:00.000Z")]).getField "timestamp" with
           | some t => if truthy t then t else Json.str "T1"
           | none => Json.str "T1")) :=
  ⟨⟨rfl, rfl, rfl, rfl⟩,
    restore_mixed ⟨true, [⟨"d1", []⟩]⟩ "T1" _ _ _ rfl rfl rfl rfl⟩

theorem restoreAdds_eq_filter (now : String) (l : List Json) :
    restoreAdds now l = (l.filter isValidCandidate).map (restoredOf now) := by
  induction l with
  | nil => rfl
  | cons c cs ih =>
    by_cases h : isValidCandidate c = true
    · rw [show restoreAdds now (c :: cs)
        = if isValidCandidate c then restoredOf now c :: restoreAdds now cs
          else restoreAdds now cs from rfl, if_pos h, ih, List.filter_cons, if_pos h,
        List.map_cons]
    · have h' : isValidCandidate c = false := by
        cases hv : isValidCandidate c with
        | false => rfl
        | true => exact absurd hv h
      rw [show restoreAdds now (c :: cs)
        = if isValidCandidate c then restoredOf now c :: restoreAdds now cs
          else restoreAdds now cs from rfl, h', ih, List.filter_cons, h']
      simp

/-- C10.  `restoreData` passes exactly the validated records to
`addDoc`, in order; every stored document's score field is the
`parseFloat` coercion of the input score field — so a numeric string
such as `"90"` passes validation and is stored as the number `90`. -/
theorem restore_parseFloat (s : FacadeState) (now payload : String) (items : List Json)
    (hready : s.isAuthReady = true)
    (hp : parseJson payload = some (.arr items)) :
    (restoreData s now payload).adds
        = (items.filter isValidCandidate).map (restoredOf now)
    ∧ ∀ j : Json, (restoredOf now j).pontuacao = jsParseFloat (jsGet j "pontuacao") := by
  constructor
  · unfold restoreData
    rw [hready]
    simp only [show (true = false) = False by simp, if_false, hp]
    exact restoreAdds_eq_filter now items
  · intro j
    rfl

theorem restore_parseFloat_witness :
    ((⟨true, []⟩ : FacadeState).isAuthReady = true
      ∧ parseJson "[\x7b\"nome\":\"B\",\"pontuacao\":\"90\",\"tipo\":\"ampla\",\"region\":\"norte\"\x7d]"
        = some (.arr [Json.obj [("nome", .str "B"), ("pontuacao", .str "90"),
            ("tipo", .str "ampla"), ("region", .str "norte")]]))
    ∧ ((restoreData ⟨true, []⟩ "T0"
          "[\x7b\"nome\":\"B\",\"pontuacao\":\"90\",\"tipo\":\"ampla\",\"region\":\"norte\"\x7d]").adds
        = ([Json.obj [("nome", .str "B"), ("pontuacao", .str "90"),
            ("tipo", .str "ampla"), ("region", .str "norte")]].filter
              isValidCandidate).map (restoredOf "T0")
      ∧ ∀ j : Json, (restoredOf "T0" j).pontuacao = jsParseFloat (jsGet j "pontuacao"))
    ∧ isValidCandidate (Json.obj [("nome", .str "B"), ("pontuacao", .str "90"),
        ("tipo", .str "ampla"), ("region", .str "norte")]) = true
    ∧ (restoreData ⟨true, []⟩ "T0"
        "[\x7b\"nome\":\"B\",\"pontuacao\":\"90\",\"tipo\":\"ampla\",\"region\":\"norte\"\x7d]").adds.map
        RestoredDoc.pontuacao = [some ⟨(90 : Int), 0⟩] :=
  ⟨⟨rfl, rfl⟩,
    restore_parseFloat ⟨true, []⟩ "T0" _ _ rfl rfl, rfl, rfl⟩
